import Mathlib

/-! # go-htmx-crud: a shallow embedding of `cmd/main.go`

The program is a single-file web application: a process-wide `Page` value
(catalog, form state, search text, filtered view) and a process-wide id
counter are mutated by nine HTTP handlers.

Layout of this development:

* `Go*` / `strings*` / `strconv*`: the pieces of the Go language and standard
  library that `main.go` calls (slices over shared backing arrays, maps,
  `strings.TrimSpace`, `strconv.Atoi`, IEEE-754 binary64 arithmetic, ...).
  What cannot be written down here in full (the Unicode case table,
  `strconv.ParseFloat`, the allocator's growth policy, conversions the Go
  specification leaves implementation-dependent) is a field of `GoEnv`, and
  every general theorem holds for every `GoEnv`.
* the data model and the functions of `main.go`, under their source names;
* `handle`: one transition of the state for one HTTP request, and `run`;
* the theorems.

Modelling decisions:

* Go strings are byte strings; they are modelled by `String`, so only valid
  UTF-8 text is covered.
* The program is modelled as built for a 64-bit platform: a Go `int` has 64
  bits.  The package variable `id` is such an `int`; `id++` wraps around from
  `2^63 - 1` to `-2^63`, and so does the model (`wrapInt`).  `strconv.Atoi`
  and the conversion `int(f)` are modelled with the same 64-bit range
  (`strconvAtoi`, `F64.toInt`).  `Product.Price` and `Product.Id` hold values
  of that range; indices are Go `int`s that hold `-1` or a position of the
  catalog.
* The handlers run one at a time, each to its end (`run`); interleavings of
  handlers running concurrently are not modelled.
* Executing a template (`c.Render`) and writing the response are not
  modelled: a `Response` records what the handler asks for.
-/

namespace GoHtmxCrud

/-! ## IEEE-754 binary64 -/

/-- A binary64 value: `finite neg m e` stands for `(-1)^neg * m * 2^e`. -/
inductive F64 where
  | finite (neg : Bool) (m : Nat) (e : Int)
  | inf (neg : Bool)
  | nan
deriving DecidableEq

/-- Number of binary digits of `n` (`0` for `0`); `fuel` bounds the recursion. -/
def bitLenAux : Nat → Nat → Nat
  | 0, _ => 0
  | fuel + 1, n => if n = 0 then 0 else bitLenAux fuel (n / 2) + 1

/-- Number of binary digits of `n`. -/
def bitLen (n : Nat) : Nat := bitLenAux n n

/-- The binary64 nearest to the rational `(-1)^neg * n / d` (`d > 0`), ties to
even, with gradual underflow (least exponent `-1074`) and overflow to
infinity (when the rounded value reaches `2^1024`). -/
def F64.round (neg : Bool) (n d : Nat) : F64 :=
  if n = 0 then F64.finite neg 0 0
  else
    let e0 : Int := (bitLen n : Int) - (bitLen d : Int)
    -- `2^(e0-1) < n/d < 2^(e0+1)`; `ex` is the exponent of the leading bit
    let ge : Bool := if 0 ≤ e0 then decide (d * 2 ^ e0.toNat ≤ n) else decide (d ≤ n * 2 ^ (-e0).toNat)
    let ex : Int := if ge then e0 else e0 - 1
    let u : Int := max (ex - 52) (-1074)
    let num : Nat := if 0 ≤ u then n else n * 2 ^ (-u).toNat
    let den : Nat := if 0 ≤ u then d * 2 ^ u.toNat else d
    let q := num / den
    let r := num % den
    let q1 := if den < 2 * r ∨ (2 * r = den ∧ q % 2 = 1) then q + 1 else q
    if 1025 ≤ (bitLen q1 : Int) + u then F64.inf neg else F64.finite neg q1 u

/-- The binary64 product `x * y` (round to nearest, ties to even). -/
def F64.mul : F64 → F64 → F64
  | F64.nan, _ => F64.nan
  | _, F64.nan => F64.nan
  | F64.inf s, F64.inf t => F64.inf (xor s t)
  | F64.inf s, F64.finite t m _ => if m = 0 then F64.nan else F64.inf (xor s t)
  | F64.finite s m _, F64.inf t => if m = 0 then F64.nan else F64.inf (xor s t)
  | F64.finite s m e, F64.finite t k f =>
    let p := m * k
    let g := e + f
    if 0 ≤ g then F64.round (xor s t) (p * 2 ^ g.toNat) 1
    else F64.round (xor s t) p (2 ^ (-g).toNat)

/-- The constant `100` converted to `float64`. -/
def F64.hundred : F64 := F64.finite false 100 0

/-- The integer part (rounding toward zero) of a finite binary64. -/
def F64.trunc (neg : Bool) (m : Nat) (e : Int) : Int :=
  let a : Nat := if 0 ≤ e then m * 2 ^ e.toNat else m / 2 ^ (-e).toNat
  if neg then -(a : Int) else (a : Int)

/-! ## The parts of Go that are parameters -/

/-- What `main.go` uses of the Go runtime and standard library without this
development fixing it. -/
structure GoEnv where
  /-- `unicode.ToLower` on one code point (`strings.ToLower` maps it over the
  runes of a valid UTF-8 string). -/
  toLowerRune : Char → Char
  /-- `strconv.ParseFloat(s, 64)`: the value returned and whether `err == nil`. -/
  parseFloat : String → F64 × Bool
  /-- Extra capacity that `append` allocates beyond the needed length when it
  has to grow a slice of the given capacity to the given length. -/
  growSlack : Nat → Nat → Nat
  /-- Result of `int(f)` when `f` is NaN, infinite or outside the range of
  `int`; the Go specification leaves it implementation-dependent. -/
  floatToIntOutOfRange : F64 → Int

/-- Go conversion `int(f)` of a `float64` to a 64-bit `int`: the fraction is
discarded; values that do not fit are implementation-dependent. -/
def F64.toInt (env : GoEnv) : F64 → Int
  | F64.finite neg m e =>
    let t := F64.trunc neg m e
    if -(2 ^ 63 : Int) ≤ t ∧ t < 2 ^ 63 then t else env.floatToIntOutOfRange (F64.finite neg m e)
  | f => env.floatToIntOutOfRange f

/-! ## `strings` and `strconv` -/

/-- `unicode.IsSpace`. -/
def unicodeIsSpace (c : Char) : Bool :=
  let n := c.toNat
  n = 0x09 || n = 0x0A || n = 0x0B || n = 0x0C || n = 0x0D || n = 0x20 || n = 0x85 || n = 0xA0
    || n = 0x1680 || (0x2000 ≤ n && n ≤ 0x200A) || n = 0x2028 || n = 0x2029 || n = 0x202F
    || n = 0x205F || n = 0x3000

/-- `strings.TrimSpace`. -/
def stringsTrimSpace (s : String) : String :=
  String.mk ((s.data.dropWhile unicodeIsSpace).reverse.dropWhile unicodeIsSpace).reverse

/-- `strings.TrimRight(s, cutset)`. -/
def stringsTrimRight (s cutset : String) : String :=
  String.mk (s.data.reverse.dropWhile (fun c => cutset.data.contains c)).reverse

/-- `strings.ToLower`. -/
def stringsToLower (env : GoEnv) (s : String) : String :=
  String.mk (s.data.map env.toLowerRune)

/-- Whether `sub` is a prefix of `l`. -/
def hasPrefix : List Char → List Char → Bool
  | [], _ => true
  | _ :: _, [] => false
  | a :: sub, b :: l => a == b && hasPrefix sub l

/-- Whether `sub` occurs in `l` as a contiguous block. -/
def containsBlock (sub : List Char) : List Char → Bool
  | [] => hasPrefix sub []
  | b :: l => hasPrefix sub (b :: l) || containsBlock sub l

/-- `strings.Contains(s, substr)`. -/
def stringsContains (s substr : String) : Bool :=
  containsBlock substr.data s.data

/-- Value of an ASCII decimal digit. -/
def digitVal (c : Char) : Option Nat :=
  if 48 ≤ c.toNat ∧ c.toNat ≤ 57 then some (c.toNat - 48) else none

/-- Value of a non-empty run of ASCII decimal digits, read from the left with
accumulator `acc`. -/
def digitsVal : List Char → Nat → Option Nat
  | [], acc => some acc
  | c :: cs, acc =>
    match digitVal c with
    | some v => digitsVal cs (acc * 10 + v)
    | none => none

/-- `strconv.Atoi` for a 64-bit `int`: an optional sign and at least one
decimal digit, nothing else; `none` stands for a non-nil error (syntax or
range). -/
def strconvAtoi (s : String) : Option Int :=
  let body : Bool × List Char :=
    match s.data with
    | '+' :: cs => (false, cs)
    | '-' :: cs => (true, cs)
    | cs => (false, cs)
  match body.2 with
  | [] => none
  | c :: cs =>
    match digitsVal (c :: cs) 0 with
    | none => none
    | some n =>
      let v : Int := if body.1 then -(n : Int) else (n : Int)
      if -(2 ^ 63 : Int) ≤ v ∧ v < 2 ^ 63 then some v else none

/-! ## A reference environment

`GoEnv.reference` fixes the parameters for evaluation on concrete requests: ASCII
case mapping (which is what `unicode.ToLower` does below U+0080), a
`ParseFloat` for plain decimal literals (sign, digits, fraction, decimal
exponent; correctly rounded, overflow is an error), no spare capacity, and
the amd64 result `-2^63` for conversions out of range. -/

/-- Longest run of ASCII decimal digits at the front of `l`, and the rest. -/
def spanDigits : List Char → List Char × List Char
  | [] => ([], [])
  | c :: cs =>
    if (digitVal c).isSome then ((c :: (spanDigits cs).1), (spanDigits cs).2) else ([], c :: cs)

/-- Decimal exponent part of a float literal: empty, or `e`/`E`, an optional
sign and at least one digit. -/
def parseExponent : List Char → Option Int
  | [] => some 0
  | c :: cs =>
    if c = 'e' ∨ c = 'E' then
      let body : Bool × List Char :=
        match cs with
        | '+' :: r => (false, r)
        | '-' :: r => (true, r)
        | r => (false, r)
      match body.2 with
      | [] => none
      | d :: ds =>
        match digitsVal (d :: ds) 0 with
        | none => none
        | some n => some (if body.1 then -(n : Int) else (n : Int))
    else none

/-- `strconv.ParseFloat(s, 64)` on plain decimal literals. -/
def parseFloatDecimal (s : String) : F64 × Bool :=
  let body : Bool × List Char :=
    match s.data with
    | '+' :: cs => (false, cs)
    | '-' :: cs => (true, cs)
    | cs => (false, cs)
  let ip := spanDigits body.2
  let fp : List Char × List Char :=
    match ip.2 with
    | '.' :: cs => spanDigits cs
    | cs => ([], cs)
  if ip.1.isEmpty && fp.1.isEmpty then (F64.finite false 0 0, false)
  else
    match parseExponent fp.2, digitsVal (ip.1 ++ fp.1) 0 with
    | some ex, some m =>
      let k : Int := ex - (fp.1.length : Int)
      let v := if 0 ≤ k then F64.round body.1 (m * 10 ^ k.toNat) 1 else F64.round body.1 m (10 ^ (-k).toNat)
      match v with
      | F64.finite _ _ _ => (v, true)
      | _ => (v, false)
    | _, _ => (F64.finite false 0 0, false)

/-- The reference environment. -/
def GoEnv.reference : GoEnv where
  toLowerRune := fun c => if 65 ≤ c.toNat ∧ c.toNat ≤ 90 then Char.ofNat (c.toNat + 32) else c
  parseFloat := parseFloatDecimal
  growSlack := fun _ _ => 0
  floatToIntOutOfRange := fun _ => -(2 ^ 63 : Int)

/-! ## The data model of `main.go`, slices and maps -/

/-- `type Product struct` (main.go 64-69); `Price` is in cents. -/
structure Product where
  Name : String
  Descr : String
  Price : Int
  Id : Int
deriving DecidableEq

/-- The zero value of `Product`, with which fresh array cells are filled. -/
def Product.zero : Product := { Name := "", Descr := "", Price := 0, Id := 0 }

/-- The assignments `product.Name = name`, `product.Descr = descr`,
`product.Price = price` of the update handler. -/
def Product.edit (name descr : String) (price : Int) (p : Product) : Product :=
  { p with Name := name, Descr := descr, Price := price }

/-- The backing arrays of `[]Product` slices allocated so far, in allocation
order; an array never changes its length (its capacity). -/
abbrev Heap := List (List Product)

/-- A slice header `[]Product`: its backing array and its length.  Every slice
that `main.go` stores or appends to starts at the first cell of its array, so
the capacity of a slice is the length of its array. -/
structure Slice where
  arr : Nat
  len : Nat
deriving DecidableEq

/-- The cells of backing array `a`. -/
def Heap.array (h : Heap) (a : Nat) : List Product := h.getD a []

/-- The elements of slice `s`. -/
def Heap.read (h : Heap) (s : Slice) : List Product := (h.array s.arr).take s.len

/-- Go `append(s, vs...)`: written in place when the capacity suffices (other
slices over the same array see the write), otherwise copied into a fresh,
larger array. -/
def goAppend (env : GoEnv) (h : Heap) (s : Slice) (vs : List Product) : Heap × Slice :=
  let a := h.array s.arr
  let n := s.len + vs.length
  if n ≤ a.length then
    (h.set s.arr (a.take s.len ++ vs ++ a.drop n), { arr := s.arr, len := n })
  else
    (h ++ [a.take s.len ++ vs ++ List.replicate (env.growSlack a.length n) Product.zero],
      { arr := h.length, len := n })

/-- Assignment through `&s[i]`: cell `i` of the array of `s` becomes `f` of
its old value. -/
def Heap.modify (h : Heap) (s : Slice) (i : Nat) (f : Product → Product) : Heap :=
  h.set s.arr ((h.array s.arr).modify f i)

/-- A Go `map[string]string`, as its list of entries (one per key). -/
abbrev GoMap := List (String × String)

/-- Map assignment `m[k] = v`. -/
def mapSet (m : GoMap) (k v : String) : GoMap := (k, v) :: m.filter (fun kv => kv.1 != k)

/-- Map lookup `m[k]`, `none` when the key is absent. -/
def mapGet (m : GoMap) (k : String) : Option String := (m.find? (fun kv => kv.1 == k)).map Prod.snd

/-- `type Data struct`. -/
structure Data where
  Products : Slice
deriving DecidableEq

/-- `type FormData struct`. -/
structure FormData where
  Values : GoMap
  Errors : GoMap
deriving DecidableEq

/-- `type Page struct`. -/
structure Page where
  Data : Data
  Form : FormData
  SearchText : String
  FilteredProducts : Slice
deriving DecidableEq

/-- The mutable state of the process: the package variable `id`, the heap, and
the variable `page` of `main` that every handler closes over. -/
structure State where
  id : Int
  heap : Heap
  page : Page
deriving DecidableEq

/-! ## The functions of `main.go` -/

/-- The value of a 64-bit Go `int` after an arithmetic result `x`: signed
integers wrap around (two's complement). -/
def wrapInt (x : Int) : Int := (x + 2 ^ 63) % 2 ^ 64 - 2 ^ 63

/-- `func newProduct` (main.go 75-83): `id++` increments the counter, wrapping
around at the end of the `int` range, and the product gets the new value;
returns the new counter and the product. -/
def newProduct (id : Int) (name descr : String) (price : Int) : Int × Product :=
  (wrapInt (id + 1), { Name := name, Descr := descr, Price := price, Id := wrapInt (id + 1) })

/-- The loop of `indexOf` from position `i` on. -/
def indexOfFrom (id : Int) : List Product → Int → Int
  | [], _ => -1
  | product :: rest, i => if product.Id = id then i else indexOfFrom id rest (i + 1)

/-- `func (d *Data) indexOf` (main.go 91-98). -/
def Data.indexOf (h : Heap) (d : Data) (id : Int) : Int :=
  indexOfFrom id (h.read d.Products) 0

/-- The loop of `hasName`. -/
def hasNameIn (name : String) : List Product → Bool
  | [] => false
  | product :: rest => if product.Name = name then true else hasNameIn name rest

/-- `func (d *Data) hasName` (main.go 100-107). -/
def Data.hasName (h : Heap) (d : Data) (name : String) : Bool :=
  hasNameIn name (h.read d.Products)

/-- `func newData` (main.go 109-115): a slice literal of one product. -/
def newData (id : Int) (h : Heap) : Int × Heap × Data :=
  let np := newProduct id "Hammer" "Smashing hammer" 1000
  (np.1, h ++ [[np.2]], { Products := { arr := h.length, len := 1 } })

/-- `func newFormData` (main.go 122-127). -/
def newFormData : FormData := { Values := [], Errors := [] }

/-- `func caseInsensitiveContains` (main.go 136-138). -/
def caseInsensitiveContains (env : GoEnv) (str substr : String) : Bool :=
  stringsContains (stringsToLower env str) (stringsToLower env substr)

/-- `func (page *Page) filteredProducts` (main.go 140-151).  The loop ranges over the elements of
`page.Data.Products` and appends to `result` only, an array of its own, so the
elements ranged over are those present when the loop starts. -/
def Page.filteredProducts (env : GoEnv) (h : Heap) (page : Page) : Heap × Slice :=
  if page.SearchText = "" then (h, page.Data.Products)
  else
    (h.read page.Data.Products).foldl
      (fun (acc : Heap × Slice) product =>
        if caseInsensitiveContains env product.Name page.SearchText
            || caseInsensitiveContains env product.Descr page.SearchText then
          goAppend env acc.1 acc.2 [product]
        else acc)
      (h ++ [[]], { arr := h.length, len := 0 })

/-- `func newPage` (main.go 153-161). -/
def newPage (id : Int) (h : Heap) : Int × Heap × Page :=
  let nd := newData id h
  (nd.1, nd.2.1,
    { Data := nd.2.2, Form := newFormData, SearchText := "", FilteredProducts := nd.2.2.Products })

/-- `func validateProductID` (main.go 163-175): index, HTTP status and error
(`none` for `nil`). -/
def validateProductID (idStr : String) (h : Heap) (page : Page) : Int × Nat × Option String :=
  match strconvAtoi idStr with
  | none => (-1, 400, some "Invalid id")
  | some id =>
    let index := page.Data.indexOf h id
    if index = -1 then (-1, 404, some "Product not found")
    else (index, 200, none)

/-- `func validateProductForm` (main.go 177-206): the parsed price, `isValid`, and the page (which
the function receives by pointer). -/
def validateProductForm (env : GoEnv) (name descr price idStr : String) (checkName : Bool)
    (h : Heap) (page : Page) : F64 × Bool × Page :=
  let values := mapSet (mapSet (mapSet newFormData.Values "name" name) "descr" descr) "price" price
  let values := if idStr ≠ "" then mapSet values "id" idStr else values
  let validName := if checkName then !page.Data.hasName h name else true
  let parsed := env.parseFloat price
  let validPrice := parsed.2
  let errors := if !validPrice then mapSet newFormData.Errors "price" "Invalid price" else newFormData.Errors
  let errors := if !validName then mapSet errors "name" "Name already exists" else errors
  let isValid := validPrice && validName
  (parsed.1, isValid,
    if !isValid then { page with Form := { Values := values, Errors := errors } } else page)

/-! ## Requests, responses and the handlers of `main` -/

/-- An HTTP request to one of the routes registered in `main`.  `hxRequest` is
the value of the `HX-Request` header (empty when absent), `cookie` the value
of the `product-search` cookie when the request carries one, the other fields
are the path parameter `:id` and the form values. -/
inductive Request where
  | getRoot
  | getProductList (hxRequest : String) (cookie : Option String)
  | getAddProduct (hxRequest : String)
  | getDeleteProduct (hxRequest : String) (idStr : String)
  | getEditProduct (hxRequest : String) (idStr : String)
  | postSearch (search : String)
  | postAddProduct (name descr price : String)
  | postEditProduct (idStr name descr price : String)
  | postDeleteProduct (idStr : String)
deriving DecidableEq

/-- What a handler answers with: `c.Redirect`, `c.String` or `c.Render` (the
name of the template; executing it is outside this model). -/
inductive Body where
  | redirect (url : String)
  | text (s : String)
  | template (name : String)
deriving DecidableEq

/-- The response a handler asks for: status code, body, the response headers
it sets and the cookie it sets. -/
structure Response where
  status : Nat
  body : Body
  headers : List (String × String)
  cookie : Option (String × String)
deriving DecidableEq

/-- `func htmxEnabled` (main.go 44-46). -/
def htmxEnabled (hxRequest : String) : Bool := hxRequest == "true"

/-- `func renderProductList` (main.go 208-213). -/
def renderProductList : Response :=
  { status := 200, body := Body.template "index_main",
    headers := [("HX-Replace-Url", "/product-list"), ("HX-Retarget", "#main"),
      ("HX-Reswap", "outerHTML")],
    cookie := none }

/-- `c.Redirect(status, url)`. -/
def respRedirect (status : Nat) (url : String) : Response :=
  { status := status, body := Body.redirect url, headers := [], cookie := none }

/-- `c.String(status, s)`. -/
def respString (status : Nat) (s : String) : Response :=
  { status := status, body := Body.text s, headers := [], cookie := none }

/-- `c.Render(status, name, page)`. -/
def respRender (status : Nat) (name : String) : Response :=
  { status := status, body := Body.template name, headers := [], cookie := none }

/-- `strconv.Itoa`. -/
def strconvItoa (n : Int) : String := toString n

/-- The cutset of the `strings.TrimRight` calls. -/
def trimCutset : String := "\t\n\r "

/-- One request served: the handler registered for its route in `main`
(main.go 226-358), run on the current state. -/
def handle (env : GoEnv) (st : State) : Request → State × Response
  | Request.getRoot => (st, respRedirect 301 "/product-list")
  | Request.getProductList hx cookie =>
    let searchText := match cookie with
      | none => ""
      | some v => v
    ({ st with page := { st.page with SearchText := searchText } },
      respRender 200 (if htmxEnabled hx then "index_main" else "index"))
  | Request.getAddProduct hx =>
    if !htmxEnabled hx then (st, respRedirect 307 "/product-list")
    else ({ st with page := { st.page with Form := newFormData } }, respRender 200 "add-product")
  | Request.getDeleteProduct hx idStr =>
    if !htmxEnabled hx then (st, respRedirect 307 "/product-list")
    else
      let v := validateProductID idStr st.heap st.page
      match v.2.2 with
      | some err => (st, respString v.2.1 err)
      | none =>
        let product := (st.heap.read st.page.Data.Products).getD v.1.toNat Product.zero
        let values := mapSet (mapSet (mapSet newFormData.Values "id" idStr) "descr" product.Descr)
          "name" product.Name
        ({ st with page := { st.page with Form := { Values := values, Errors := newFormData.Errors } } },
          respRender 200 "del-product")
  | Request.getEditProduct hx idStr =>
    if !htmxEnabled hx then (st, respRedirect 307 "/product-list")
    else
      let v := validateProductID idStr st.heap st.page
      match v.2.2 with
      | some err => (st, respString v.2.1 err)
      | none =>
        let product := (st.heap.read st.page.Data.Products).getD v.1.toNat Product.zero
        let price := strconvItoa (product.Price.tdiv 100)
        let values := mapSet (mapSet (mapSet (mapSet newFormData.Values "id" idStr) "price" price)
          "descr" product.Descr) "name" product.Name
        ({ st with page := { st.page with Form := { Values := values, Errors := newFormData.Errors } } },
          respRender 200 "edit-product")
  | Request.postSearch search =>
    let page1 := { st.page with SearchText := stringsTrimRight search trimCutset }
    let fp := page1.filteredProducts env st.heap
    ({ st with heap := fp.1, page := { page1 with FilteredProducts := fp.2 } },
      { status := 200, body := Body.template "product-list-search-results", headers := [],
        cookie := some ("product-search", page1.SearchText) })
  | Request.postAddProduct fname fdescr fprice =>
    let name := stringsTrimSpace fname
    let descr := stringsTrimRight fdescr trimCutset
    let vf := validateProductForm env name descr fprice "" true st.heap st.page
    if !vf.2.1 then ({ st with page := vf.2.2 }, respRender 422 "add-product-form")
    else
      let priceInCents := F64.toInt env (F64.mul vf.1 F64.hundred)
      let np := newProduct st.id name descr priceInCents
      let ap := goAppend env st.heap vf.2.2.Data.Products [np.2]
      let page1 := { vf.2.2 with Data := { Products := ap.2 } }
      let fp := page1.filteredProducts env ap.1
      ({ id := np.1, heap := fp.1, page := { page1 with FilteredProducts := fp.2 } },
        renderProductList)
  | Request.postEditProduct idStr fname fdescr fprice =>
    let v := validateProductID idStr st.heap st.page
    match v.2.2 with
    | some err => (st, respString v.2.1 err)
    | none =>
      let index := v.1.toNat
      let product := (st.heap.read st.page.Data.Products).getD index Product.zero
      let name := stringsTrimSpace fname
      let descr := stringsTrimRight fdescr trimCutset
      let checkName := product.Name != name
      let vf := validateProductForm env name descr fprice idStr checkName st.heap st.page
      if !vf.2.1 then ({ st with page := vf.2.2 }, respRender 422 "edit-product-form")
      else
        let priceInCents := F64.toInt env (F64.mul vf.1 F64.hundred)
        let heap1 := st.heap.modify vf.2.2.Data.Products index
          (Product.edit name descr priceInCents)
        let fp := vf.2.2.filteredProducts env heap1
        ({ st with heap := fp.1, page := { vf.2.2 with FilteredProducts := fp.2 } },
          renderProductList)
  | Request.postDeleteProduct idStr =>
    let v := validateProductID idStr st.heap st.page
    match v.2.2 with
    | some err => (st, respString v.2.1 err)
    | none =>
      let index := v.1.toNat
      let products := st.page.Data.Products
      let ap := goAppend env st.heap { arr := products.arr, len := index }
        ((st.heap.read products).drop (index + 1))
      ({ st with heap := ap.1, page := { st.page with Data := { Products := ap.2 } } },
        { status := 200, body := Body.template "index_main",
          headers := [("HX-Replace-Url", "/product-list")], cookie := none })

/-- The state when `main` starts serving: `id` was initialised to `0`
(main.go 62) and `newPage()` has run (main.go 220), here on an empty heap. -/
def State.init : State :=
  let np := newPage 0 []
  { id := np.1, heap := np.2.1, page := np.2.2 }

/-- The state after serving the requests `rs` one after the other. -/
def run (env : GoEnv) (rs : List Request) : State :=
  rs.foldl (fun st r => (handle env st r).1) State.init

/-- The catalog: the elements of `page.Data.Products`. -/
def State.catalog (st : State) : List Product := st.heap.read st.page.Data.Products

/-- The elements of `page.FilteredProducts`. -/
def State.filtered (st : State) : List Product := st.heap.read st.page.FilteredProducts

/-! ## Predicates used by the theorems -/

/-- A slice header that is well-formed in the heap: its array exists and its
length does not exceed its capacity. -/
structure SliceOk (h : Heap) (s : Slice) : Prop where
  arr_lt : s.arr < h.length
  len_le : s.len ≤ (h.array s.arr).length

/-- The heap `h'` extends `h` without touching the arrays of `h` below `k`. -/
def HeapKeeps (k : Nat) (h h' : Heap) : Prop :=
  h.length ≤ h'.length ∧ ∀ j, j < k → h'.array j = h.array j

/-- The text `sub` occurs in `str` as a case-insensitive substring: a contiguous
block of `str` and `sub` are the same once both are lower-cased, rune by rune. -/
def CaseInsensitiveSubstring (env : GoEnv) (sub str : String) : Prop :=
  ∃ pre w suf : List Char,
    str.data = pre ++ w ++ suf ∧ w.map env.toLowerRune = sub.data.map env.toLowerRune

/-- The test of the loop of `filteredProducts`: the search text occurs in the
name or in the description. -/
def matchesSearch (env : GoEnv) (searchText : String) (product : Product) : Bool :=
  caseInsensitiveContains env product.Name searchText
    || caseInsensitiveContains env product.Descr searchText

/-- The effect of one request on the id counter and the catalog, whatever the
request: nothing, a product appended under the next id and a name not yet in
the catalog, a product edited in place (keeping its name or taking one not in
the catalog), or a product removed. -/
inductive CatalogStep : Int × List Product → Int × List Product → Prop where
  | same (id : Int) (cat : List Product) : CatalogStep (id, cat) (id, cat)
  | create (id : Int) (cat : List Product) (name descr : String) (price : Int) :
      hasNameIn name cat = false →
      CatalogStep (id, cat)
        (wrapInt (id + 1),
          cat ++ [{ Name := name, Descr := descr, Price := price, Id := wrapInt (id + 1) }])
  | update (id : Int) (cat : List Product) (i : Nat) (name descr : String) (price : Int) :
      i < cat.length →
      ((cat[i]?).map Product.Name = some name ∨ hasNameIn name cat = false) →
      CatalogStep (id, cat) (id, cat.modify (Product.edit name descr price) i)
  | delete (id : Int) (cat : List Product) (i : Nat) :
      i < cat.length → CatalogStep (id, cat) (id, cat.eraseIdx i)

/-- What holds of counter and catalog as long as the counter has not wrapped
around: the counter is positive, every id is positive and at most the
counter, ids are pairwise distinct. -/
structure CatalogInv (s : Int × List Product) : Prop where
  counter_pos : 0 < s.1
  id_pos : ∀ p ∈ s.2, 0 < p.Id
  id_le : ∀ p ∈ s.2, p.Id ≤ s.1
  ids_nodup : (s.2.map Product.Id).Nodup

/-- The state after serving the requests `rs` from state `st`. -/
def runFrom (env : GoEnv) (st : State) (rs : List Request) : State :=
  rs.foldl (fun st r => (handle env st r).1) st

/-- The nearest integer to a binary64 value, halves away from zero: the `round`
of the specification's `round(price * 100)`; `none` for NaN and the
infinities. -/
def F64.roundNearest : F64 → Option Int
  | F64.finite neg m e =>
    let a : Nat :=
      if 0 ≤ e then m * 2 ^ e.toNat else (2 * m + 2 ^ (-e).toNat) / (2 * 2 ^ (-e).toNat)
    some (if neg then -(a : Int) else (a : Int))
  | _ => none

/-- How serving `r` in state `st` leaves `page.Form`: `some true` when a create
or update submission fails the validation of the form (answer 422: the form
becomes the submitted values with the errors), `some false` when one of the
three form pages is displayed (answer 200: the form is reset), `none`
otherwise (the form is not assigned). -/
def formEffect (env : GoEnv) (st : State) (r : Request) : Option Bool :=
  match r with
  | Request.postAddProduct _ _ _ => if (handle env st r).2.status = 422 then some true else none
  | Request.postEditProduct _ _ _ _ => if (handle env st r).2.status = 422 then some true else none
  | Request.getAddProduct _ => if (handle env st r).2.status = 200 then some false else none
  | Request.getDeleteProduct _ _ => if (handle env st r).2.status = 200 then some false else none
  | Request.getEditProduct _ _ => if (handle env st r).2.status = 200 then some false else none
  | _ => none

/-- The last `formEffect` other than `none` along the requests `rs` served from
`st` on; `last` when there is none. -/
def lastFormEffect (env : GoEnv) : State → Option Bool → List Request → Option Bool
  | _, last, [] => last
  | st, last, r :: rs =>
    lastFormEffect env (handle env st r).1
      (match formEffect env st r with
        | some b => some b
        | none => last) rs

/-- The view that the catalog `cat` and the search text `s` call for: the
filter of section 4.3 of the specification. -/
def expectedView (env : GoEnv) (cat : List Product) (s : String) : List Product :=
  if s = "" then cat else cat.filter (matchesSearch env s)

/-- The ASCII digit for `d < 10`. -/
def digitChar (d : Nat) : Char := Char.ofNat (48 + d)

/-- The decimal digits of `n`, most significant first; `fuel` bounds their
number. -/
def decimalFuel : Nat → Nat → List Char
  | 0, _ => []
  | fuel + 1, n =>
    if n < 10 then [digitChar n] else decimalFuel fuel (n / 10) ++ [digitChar (n % 10)]

/-- The decimal text of a natural number below `10^20`, as it stands in the
path of a request for the product with that id. -/
def decimalText (n : Nat) : String := String.mk (decimalFuel 20 n)

/-- The run of `k` rounds in which a product "x" is created and then deleted
by its id, which is `j + 2` in round `j`. -/
def createDeleteRounds : Nat → List Request
  | 0 => []
  | k + 1 =>
    createDeleteRounds k
      ++ [Request.postAddProduct "x" "" "1", Request.postDeleteProduct (decimalText (k + 2))]

/-! # Theorems -/

/-! ## Slices over the heap -/

theorem array_set (h : Heap) (i j : Nat) (a : List Product) :
    Heap.array (h.set i a) j = if i = j ∧ i < h.length then a else Heap.array h j := by
  unfold Heap.array
  simp only [List.getD_eq_getElem?_getD, List.getElem?_set]
  by_cases hij : i = j
  · subst hij
    by_cases hi : i < h.length
    · simp [hi]
    · simp [hi, List.getElem?_eq_none (Nat.le_of_not_lt hi)]
  · simp [hij]

theorem array_append_lt (h x : Heap) (j : Nat) (hj : j < h.length) :
    Heap.array (h ++ x) j = Heap.array h j := by
  unfold Heap.array
  simp [List.getD_eq_getElem?_getD, List.getElem?_append_left hj]

theorem array_append_self (h : Heap) (a : List Product) :
    Heap.array (h ++ [a]) h.length = a := by
  unfold Heap.array
  simp [List.getD_eq_getElem?_getD]

theorem array_of_le (h : Heap) (j : Nat) (hj : h.length ≤ j) : Heap.array h j = [] := by
  unfold Heap.array
  simp [List.getD_eq_getElem?_getD, List.getElem?_eq_none hj]

theorem goAppend_read (env : GoEnv) (h : Heap) (s : Slice) (vs : List Product)
    (hs : s.len ≤ (h.array s.arr).length) :
    (goAppend env h s vs).1.read (goAppend env h s vs).2 = h.read s ++ vs := by
  unfold goAppend
  by_cases hn : s.len + vs.length ≤ (h.array s.arr).length
  · simp only [hn, if_true, Heap.read]
    by_cases ha : s.arr < h.length
    · rw [array_set]
      simp only [ha, and_self, if_true]
      rw [List.append_assoc, List.take_append_eq_append_take, List.take_append_eq_append_take]
      simp [List.length_take, Nat.min_eq_left hs]
    · have h0 : h.array s.arr = [] := array_of_le h _ (Nat.le_of_not_lt ha)
      rw [h0] at hn hs
      simp only [List.length_nil, Nat.le_zero, Nat.add_eq_zero, List.length_eq_zero] at hn hs
      simp [array_set, h0, hn.1, hn.2]
  · simp only [hn, if_false, Heap.read, array_append_self]
    rw [List.append_assoc, List.take_append_eq_append_take, List.take_append_eq_append_take]
    simp [List.length_take, Nat.min_eq_left hs]

theorem goAppend_ok (env : GoEnv) (h : Heap) (s : Slice) (vs : List Product)
    (hs : SliceOk h s) : SliceOk (goAppend env h s vs).1 (goAppend env h s vs).2 := by
  unfold goAppend
  by_cases hn : s.len + vs.length ≤ (h.array s.arr).length
  · simp only [hn, if_true]
    refine ⟨by simpa using hs.arr_lt, ?_⟩
    simp only [array_set, hs.arr_lt, and_self, if_true]
    simp [List.length_take, Nat.min_eq_left hs.len_le]
  · simp only [hn, if_false]
    refine ⟨by simp, ?_⟩
    simp only [array_append_self]
    simp [List.length_take, Nat.min_eq_left hs.len_le]

theorem HeapKeeps.refl (k : Nat) (h : Heap) : HeapKeeps k h h := ⟨Nat.le_refl _, fun _ _ => rfl⟩

theorem HeapKeeps.trans {k : Nat} {h1 h2 h3 : Heap} (a : HeapKeeps k h1 h2) (b : HeapKeeps k h2 h3) :
    HeapKeeps k h1 h3 :=
  ⟨Nat.le_trans a.1 b.1, fun j hj => (b.2 j hj).trans (a.2 j hj)⟩

theorem goAppend_keeps (env : GoEnv) (h : Heap) (s : Slice) (vs : List Product) (k : Nat)
    (hk : k ≤ s.arr) (hkh : k ≤ h.length) : HeapKeeps k h (goAppend env h s vs).1 := by
  unfold goAppend
  by_cases hn : s.len + vs.length ≤ (h.array s.arr).length
  · simp only [hn, if_true]
    refine ⟨by simp, fun j hj => ?_⟩
    rw [array_set]
    have : s.arr ≠ j := by omega
    simp [this]
  · simp only [hn, if_false]
    refine ⟨by simp, fun j hj => ?_⟩
    exact array_append_lt h _ j (by omega)

theorem goAppend_arr_ge (env : GoEnv) (h : Heap) (s : Slice) (vs : List Product) (k : Nat)
    (hk : k ≤ s.arr) (hkh : k ≤ h.length) : k ≤ (goAppend env h s vs).2.arr := by
  unfold goAppend
  by_cases hn : s.len + vs.length ≤ (h.array s.arr).length
  · simpa [hn] using hk
  · simpa [hn] using hkh

/-! ## `filteredProducts` -/

theorem hasPrefix_iff (sub l : List Char) :
    hasPrefix sub l = true ↔ ∃ suf, l = sub ++ suf := by
  induction sub generalizing l with
  | nil => simp [hasPrefix]
  | cons a sub ih =>
    cases l with
    | nil => simp [hasPrefix]
    | cons b l =>
      simp only [hasPrefix, Bool.and_eq_true, beq_iff_eq, ih, List.cons_append, List.cons.injEq]
      constructor
      · rintro ⟨hab, suf, hs⟩
        exact ⟨suf, hab.symm, hs⟩
      · rintro ⟨suf, hab, hs⟩
        exact ⟨hab.symm, suf, hs⟩

theorem containsBlock_iff (sub l : List Char) :
    containsBlock sub l = true ↔ ∃ pre suf, l = pre ++ sub ++ suf := by
  induction l with
  | nil =>
    simp only [containsBlock, hasPrefix_iff]
    constructor
    · rintro ⟨suf, hs⟩
      exact ⟨[], suf, by simpa using hs⟩
    · rintro ⟨pre, suf, hs⟩
      have h1 := congrArg List.length hs
      simp only [List.length_nil, List.length_append] at h1
      have hsub : sub = [] := List.length_eq_zero.mp (by omega)
      exact ⟨[], by simp [hsub]⟩
  | cons b l ih =>
    simp only [containsBlock, Bool.or_eq_true, hasPrefix_iff, ih]
    constructor
    · rintro (⟨suf, hs⟩ | ⟨pre, suf, hs⟩)
      · exact ⟨[], suf, by simpa using hs⟩
      · exact ⟨b :: pre, suf, by simp [hs]⟩
    · rintro ⟨pre, suf, hs⟩
      cases pre with
      | nil => exact Or.inl ⟨suf, by simpa using hs⟩
      | cons c pre =>
        simp only [List.cons_append, List.cons.injEq] at hs
        exact Or.inr ⟨pre, suf, hs.2⟩

theorem caseInsensitiveContains_iff (env : GoEnv) (str sub : String) :
    caseInsensitiveContains env str sub = true ↔ CaseInsensitiveSubstring env sub str := by
  unfold caseInsensitiveContains stringsContains stringsToLower CaseInsensitiveSubstring
  simp only [containsBlock_iff]
  constructor
  · rintro ⟨pre, suf, hs⟩
    obtain ⟨l1, l2, h1, h2, h3⟩ := List.map_eq_append_iff.mp hs
    obtain ⟨l3, l4, h4, h5, h6⟩ := List.map_eq_append_iff.mp h2
    exact ⟨l3, l4, l2, by rw [h1, h4], h6⟩
  · rintro ⟨pre, w, suf, hs, hw⟩
    exact ⟨pre.map env.toLowerRune, suf.map env.toLowerRune, by simp [hs, hw]⟩

theorem filterLoop_spec (env : GoEnv) (pred : Product → Bool) (k : Nat) (l : List Product) :
    ∀ acc : Heap × Slice, SliceOk acc.1 acc.2 → k ≤ acc.2.arr →
      SliceOk (l.foldl (fun (acc : Heap × Slice) p =>
          if pred p then goAppend env acc.1 acc.2 [p] else acc) acc).1
        (l.foldl (fun (acc : Heap × Slice) p =>
          if pred p then goAppend env acc.1 acc.2 [p] else acc) acc).2
      ∧ HeapKeeps k acc.1 (l.foldl (fun (acc : Heap × Slice) p =>
          if pred p then goAppend env acc.1 acc.2 [p] else acc) acc).1
      ∧ (l.foldl (fun (acc : Heap × Slice) p =>
          if pred p then goAppend env acc.1 acc.2 [p] else acc) acc).1.read
          (l.foldl (fun (acc : Heap × Slice) p =>
            if pred p then goAppend env acc.1 acc.2 [p] else acc) acc).2
        = acc.1.read acc.2 ++ l.filter pred := by
  induction l with
  | nil => intro acc hok _; exact ⟨hok, HeapKeeps.refl _ _, by simp⟩
  | cons p l ih =>
    intro acc hok hk
    simp only [List.foldl_cons]
    by_cases hp : pred p = true
    · simp only [hp, if_true]
      have hok1 := goAppend_ok env acc.1 acc.2 [p] hok
      have hk1 := goAppend_arr_ge env acc.1 acc.2 [p] k hk (Nat.le_trans hk (Nat.le_of_lt hok.arr_lt))
      have hkeep := goAppend_keeps env acc.1 acc.2 [p] k hk (Nat.le_trans hk (Nat.le_of_lt hok.arr_lt))
      obtain ⟨r1, r2, r3⟩ := ih (goAppend env acc.1 acc.2 [p]) hok1 hk1
      refine ⟨r1, hkeep.trans r2, ?_⟩
      rw [r3, goAppend_read env acc.1 acc.2 [p] hok.len_le]
      simp [List.filter_cons, hp]
    · have hp' : pred p = false := by simpa using hp
      simp only [hp', Bool.false_eq_true, if_false]
      obtain ⟨r1, r2, r3⟩ := ih acc hok hk
      refine ⟨r1, r2, ?_⟩
      rw [r3]
      simp [List.filter_cons, hp']

/-- What `filteredProducts` returns and what it leaves alone: the arrays that
existed before are unchanged, the result is well-formed when the catalog
slice is, and its elements are the catalog or the matching products. -/
theorem filteredProducts_spec (env : GoEnv) (h : Heap) (page : Page) :
    HeapKeeps h.length h (page.filteredProducts env h).1
    ∧ (SliceOk h page.Data.Products →
        SliceOk (page.filteredProducts env h).1 (page.filteredProducts env h).2)
    ∧ (page.filteredProducts env h).1.read (page.filteredProducts env h).2
        = if page.SearchText = "" then h.read page.Data.Products
          else (h.read page.Data.Products).filter (matchesSearch env page.SearchText) := by
  unfold Page.filteredProducts
  by_cases hs : page.SearchText = ""
  · simp only [hs, if_true]
    exact ⟨HeapKeeps.refl _ _, fun x => x, trivial⟩
  · simp only [hs, if_false]
    have hstart : SliceOk (h ++ [[]]) { arr := h.length, len := 0 } :=
      ⟨by simp, by simp⟩
    obtain ⟨r1, r2, r3⟩ := filterLoop_spec env (matchesSearch env page.SearchText) h.length
      (h.read page.Data.Products) (h ++ [[]], { arr := h.length, len := 0 }) hstart (Nat.le_refl _)
    have hk0 : HeapKeeps h.length h (h ++ [[]]) :=
      ⟨by simp, fun j hj => array_append_lt h _ j hj⟩
    refine ⟨hk0.trans r2, fun _ => r1, ?_⟩
    rw [show (fun (acc : Heap × Slice) product =>
        if (caseInsensitiveContains env product.Name page.SearchText
            || caseInsensitiveContains env product.Descr page.SearchText) = true then
          goAppend env acc.1 acc.2 [product]
        else acc) = (fun (acc : Heap × Slice) p =>
          if matchesSearch env page.SearchText p then goAppend env acc.1 acc.2 [p] else acc) from rfl]
    rw [r3]
    simp [Heap.read]

/-- C1: `filteredProducts` returns the whole catalog, in order, when the search
text is empty, and otherwise exactly the products, in catalog order, whose
name or description contains the search text as a case-insensitive
substring (a block of the text that equals the search text once both are
lower-cased). -/
theorem filteredProducts_is_filter (env : GoEnv) (h : Heap) (page : Page) :
    ((page.filteredProducts env h).1.read (page.filteredProducts env h).2
        = if page.SearchText = "" then h.read page.Data.Products
          else (h.read page.Data.Products).filter (matchesSearch env page.SearchText))
    ∧ ((page.filteredProducts env h).1.read (page.filteredProducts env h).2).Sublist
        (h.read page.Data.Products)
    ∧ ∀ product : Product, matchesSearch env page.SearchText product = true ↔
        (CaseInsensitiveSubstring env page.SearchText product.Name
          ∨ CaseInsensitiveSubstring env page.SearchText product.Descr) := by
  have hspec := (filteredProducts_spec env h page).2.2
  refine ⟨hspec, ?_, ?_⟩
  · rw [hspec]
    split
    · exact List.Sublist.refl _
    · exact List.filter_sublist _
  · intro product
    simp [matchesSearch, caseInsensitiveContains_iff]

/-! ## Validation -/

theorem indexOfFrom_absent (id : Int) (l : List Product) (i : Int)
    (hno : ∀ p ∈ l, p.Id ≠ id) : indexOfFrom id l i = -1 := by
  induction l generalizing i with
  | nil => rfl
  | cons p l ih =>
    have hp : p.Id ≠ id := hno p (List.mem_cons_self _ _)
    simp only [indexOfFrom, hp, if_false]
    exact ih (i + 1) (fun q hq => hno q (List.mem_cons_of_mem _ hq))

theorem indexOfFrom_present (id : Int) (l : List Product) (i : Int)
    (hex : ∃ p ∈ l, p.Id = id) :
    ∃ j : Nat, j < l.length ∧ indexOfFrom id l i = i + (j : Int)
      ∧ (l[j]?).map Product.Id = some id := by
  induction l generalizing i with
  | nil => simp at hex
  | cons p l ih =>
    by_cases hp : p.Id = id
    · exact ⟨0, by simp, by simp [indexOfFrom, hp], by simp [hp]⟩
    · have hex' : ∃ q ∈ l, q.Id = id := by
        obtain ⟨q, hq, hqid⟩ := hex
        rcases List.mem_cons.mp hq with h1 | h1
        · exact absurd (h1 ▸ hqid) hp
        · exact ⟨q, h1, hqid⟩
      obtain ⟨j, hj, hidx, hget⟩ := ih (i + 1) hex'
      refine ⟨j + 1, by simpa using hj, ?_, by simpa using hget⟩
      simp only [indexOfFrom, hp, if_false, hidx]
      push_cast
      ring

theorem hasNameIn_iff (name : String) (l : List Product) :
    hasNameIn name l = true ↔ ∃ p ∈ l, p.Name = name := by
  induction l with
  | nil => simp [hasNameIn]
  | cons p l ih =>
    by_cases hp : p.Name = name
    · simp [hasNameIn, hp]
    · simp [hasNameIn, hp, ih]

theorem validateProductID_invalid (idStr : String) (h : Heap) (page : Page)
    (hparse : strconvAtoi idStr = none) :
    validateProductID idStr h page = (-1, 400, some "Invalid id") := by
  simp [validateProductID, hparse]

theorem validateProductID_absent (idStr : String) (h : Heap) (page : Page) (id : Int)
    (hparse : strconvAtoi idStr = some id) (hno : ∀ p ∈ h.read page.Data.Products, p.Id ≠ id) :
    validateProductID idStr h page = (-1, 404, some "Product not found") := by
  simp [validateProductID, hparse, Data.indexOf, indexOfFrom_absent id _ 0 hno]

theorem validateProductID_present (idStr : String) (h : Heap) (page : Page) (id : Int)
    (hparse : strconvAtoi idStr = some id) (hex : ∃ p ∈ h.read page.Data.Products, p.Id = id) :
    ∃ i : Nat, i < (h.read page.Data.Products).length
      ∧ validateProductID idStr h page = ((i : Int), 200, none)
      ∧ ((h.read page.Data.Products)[i]?).map Product.Id = some id := by
  obtain ⟨j, hj, hidx, hget⟩ := indexOfFrom_present id _ 0 hex
  refine ⟨j, hj, ?_, hget⟩
  have hne : ((j : Int) = -1) = False := by
    apply eq_false
    omega
  simp [validateProductID, hparse, Data.indexOf, hidx, hne]

/-- C5: `validateProductID` answers 400 "Invalid id" when the text is no
integer, 404 "Product not found" when the integer is the id of no product of
the catalog, and otherwise 200, no error and an index that is in range and
holds a product with that id. -/
theorem validateProductID_spec (idStr : String) (h : Heap) (page : Page) :
    (strconvAtoi idStr = none →
      validateProductID idStr h page = (-1, 400, some "Invalid id"))
    ∧ (∀ id : Int, strconvAtoi idStr = some id →
        (∀ p ∈ h.read page.Data.Products, p.Id ≠ id) →
        validateProductID idStr h page = (-1, 404, some "Product not found"))
    ∧ (∀ id : Int, strconvAtoi idStr = some id →
        (∃ p ∈ h.read page.Data.Products, p.Id = id) →
        ∃ i : Nat, i < (h.read page.Data.Products).length
          ∧ validateProductID idStr h page = ((i : Int), 200, none)
          ∧ ((h.read page.Data.Products)[i]?).map Product.Id = some id) :=
  ⟨validateProductID_invalid idStr h page,
    fun id hp hno => validateProductID_absent idStr h page id hp hno,
    fun id hp hex => validateProductID_present idStr h page id hp hex⟩

/-- C5, at the initial page: "abc" is refused with 400, "999" with 404, and "1"
is found at index 0. -/
theorem validateProductID_spec_witness :
    validateProductID "abc" State.init.heap State.init.page = (-1, 400, some "Invalid id")
    ∧ validateProductID "999" State.init.heap State.init.page
        = (-1, 404, some "Product not found")
    ∧ ∃ i : Nat, i < (State.init.heap.read State.init.page.Data.Products).length
        ∧ validateProductID "1" State.init.heap State.init.page = ((i : Int), 200, none)
        ∧ ((State.init.heap.read State.init.page.Data.Products)[i]?).map Product.Id = some 1 :=
  ⟨(validateProductID_spec "abc" State.init.heap State.init.page).1 (by decide),
    (validateProductID_spec "999" State.init.heap State.init.page).2.1 999 (by decide)
      (by decide),
    (validateProductID_spec "1" State.init.heap State.init.page).2.2 1 (by decide)
      (by decide)⟩

/-- C9: a delete request whose id is an integer but the id of no product
leaves the state (the catalog with it) as it is and answers 404. -/
theorem delete_unknown_id (env : GoEnv) (st : State) (idStr : String) (id : Int)
    (hparse : strconvAtoi idStr = some id) (hno : ∀ p ∈ st.catalog, p.Id ≠ id) :
    (handle env st (Request.postDeleteProduct idStr)).1 = st
    ∧ (handle env st (Request.postDeleteProduct idStr)).1.catalog = st.catalog
    ∧ (handle env st (Request.postDeleteProduct idStr)).2
        = respString 404 "Product not found" := by
  have hv := validateProductID_absent idStr st.heap st.page id hparse hno
  simp [handle, hv]

/-- C9, for the id "999" at the initial page. -/
theorem delete_unknown_id_witness :
    (handle GoEnv.reference State.init (Request.postDeleteProduct "999")).1 = State.init
    ∧ (handle GoEnv.reference State.init (Request.postDeleteProduct "999")).1.catalog
        = State.init.catalog
    ∧ (handle GoEnv.reference State.init (Request.postDeleteProduct "999")).2
        = respString 404 "Product not found" :=
  delete_unknown_id GoEnv.reference State.init "999" 999 (by decide) (by decide)

/-! ## Form validation and the create handler -/

theorem validateProductForm_valid (env : GoEnv) (name descr price idStr : String)
    (checkName : Bool) (h : Heap) (page : Page) :
    (validateProductForm env name descr price idStr checkName h page).2.1
      = ((env.parseFloat price).2 && (if checkName then !page.Data.hasName h name else true)) := by
  simp [validateProductForm]

theorem validateProductForm_price (env : GoEnv) (name descr price idStr : String)
    (checkName : Bool) (h : Heap) (page : Page) :
    (validateProductForm env name descr price idStr checkName h page).1
      = (env.parseFloat price).1 := by
  simp [validateProductForm]

theorem validateProductForm_page_ok (env : GoEnv) (name descr price idStr : String)
    (checkName : Bool) (h : Heap) (page : Page)
    (hv : (validateProductForm env name descr price idStr checkName h page).2.1 = true) :
    (validateProductForm env name descr price idStr checkName h page).2.2 = page := by
  unfold validateProductForm at hv ⊢
  dsimp only at hv ⊢
  rw [hv]
  rfl

theorem validateProductForm_data (env : GoEnv) (name descr price idStr : String)
    (checkName : Bool) (h : Heap) (page : Page) :
    (validateProductForm env name descr price idStr checkName h page).2.2.Data = page.Data
    ∧ (validateProductForm env name descr price idStr checkName h page).2.2.SearchText
        = page.SearchText
    ∧ (validateProductForm env name descr price idStr checkName h page).2.2.FilteredProducts
        = page.FilteredProducts := by
  unfold validateProductForm
  dsimp only
  cases ((env.parseFloat price).2 && (if checkName = true then !page.Data.hasName h name else true))
    <;> exact ⟨rfl, rfl, rfl⟩

theorem validateProductForm_errors (env : GoEnv) (name descr price idStr : String)
    (checkName : Bool) (h : Heap) (page : Page)
    (hv : (validateProductForm env name descr price idStr checkName h page).2.1 = false) :
    (validateProductForm env name descr price idStr checkName h page).2.2.Form.Errors
      = (if (if checkName then !page.Data.hasName h name else true) = false then
          mapSet (if (env.parseFloat price).2 = false then mapSet [] "price" "Invalid price" else [])
            "name" "Name already exists"
        else if (env.parseFloat price).2 = false then mapSet [] "price" "Invalid price" else []) := by
  unfold validateProductForm at hv ⊢
  dsimp only at hv ⊢
  generalize (env.parseFloat price).2 = b1 at hv ⊢
  generalize (if checkName = true then !page.Data.hasName h name else true) = b2 at hv ⊢
  cases b1 <;> cases b2 <;> first | rfl | exact absurd hv (by decide)

/-- C2: a create submission whose trimmed name is already the name of a product,
or whose price text is not parsed, leaves the id counter, the heap and the
catalog as they are and is answered with 422 and the form; the form errors
hold "name" (with "Name already exists") exactly when the name is taken and
"price" (with "Invalid price") exactly when the price is not parsed. -/
theorem create_invalid (env : GoEnv) (st : State) (fname fdescr fprice : String)
    (hfail : (∃ p ∈ st.catalog, p.Name = stringsTrimSpace fname)
      ∨ (env.parseFloat fprice).2 = false) :
    (handle env st (Request.postAddProduct fname fdescr fprice)).1.id = st.id
    ∧ (handle env st (Request.postAddProduct fname fdescr fprice)).1.heap = st.heap
    ∧ (handle env st (Request.postAddProduct fname fdescr fprice)).1.catalog = st.catalog
    ∧ (handle env st (Request.postAddProduct fname fdescr fprice)).2
        = respRender 422 "add-product-form"
    ∧ (mapGet (handle env st (Request.postAddProduct fname fdescr fprice)).1.page.Form.Errors
          "name" = some "Name already exists"
        ↔ ∃ p ∈ st.catalog, p.Name = stringsTrimSpace fname)
    ∧ (mapGet (handle env st (Request.postAddProduct fname fdescr fprice)).1.page.Form.Errors
          "name" = none
        ↔ ¬ ∃ p ∈ st.catalog, p.Name = stringsTrimSpace fname)
    ∧ (mapGet (handle env st (Request.postAddProduct fname fdescr fprice)).1.page.Form.Errors
          "price" = some "Invalid price"
        ↔ (env.parseFloat fprice).2 = false)
    ∧ (mapGet (handle env st (Request.postAddProduct fname fdescr fprice)).1.page.Form.Errors
          "price" = none
        ↔ (env.parseFloat fprice).2 = true) := by
  have hname : st.page.Data.hasName st.heap (stringsTrimSpace fname) = true ↔
      ∃ p ∈ st.catalog, p.Name = stringsTrimSpace fname := by
    unfold Data.hasName State.catalog
    exact hasNameIn_iff _ _
  have hv : (validateProductForm env (stringsTrimSpace fname) (stringsTrimRight fdescr trimCutset)
      fprice "" true st.heap st.page).2.1 = false := by
    rw [validateProductForm_valid]
    rcases hfail with h1 | h1
    · simp [hname.mpr h1]
    · simp [h1]
  have herr := validateProductForm_errors env (stringsTrimSpace fname)
    (stringsTrimRight fdescr trimCutset) fprice "" true st.heap st.page hv
  have hdata := (validateProductForm_data env (stringsTrimSpace fname)
    (stringsTrimRight fdescr trimCutset) fprice "" true st.heap st.page).1
  have hstate : handle env st (Request.postAddProduct fname fdescr fprice)
      = ({ st with page := (validateProductForm env (stringsTrimSpace fname)
            (stringsTrimRight fdescr trimCutset) fprice "" true st.heap st.page).2.2 },
          respRender 422 "add-product-form") := by
    simp [handle, hv]
  rw [hstate]
  refine ⟨rfl, rfl, ?_, rfl, ?_⟩
  · simp [State.catalog, hdata]
  · simp only [herr, ← hname]
    cases hp : (env.parseFloat fprice).2 <;>
      cases hn : st.page.Data.hasName st.heap (stringsTrimSpace fname) <;>
      simp [mapGet, mapSet]

/-- C2, at the initial page: the name "Hammer" is taken and the price "abc" is
not a number. -/
theorem create_invalid_witness :
    (handle GoEnv.reference State.init (Request.postAddProduct " Hammer" "" "abc")).1.id
        = State.init.id
    ∧ (handle GoEnv.reference State.init (Request.postAddProduct " Hammer" "" "abc")).1.heap
        = State.init.heap
    ∧ (handle GoEnv.reference State.init (Request.postAddProduct " Hammer" "" "abc")).1.catalog
        = State.init.catalog
    ∧ (handle GoEnv.reference State.init (Request.postAddProduct " Hammer" "" "abc")).2
        = respRender 422 "add-product-form"
    ∧ (mapGet (handle GoEnv.reference State.init
          (Request.postAddProduct " Hammer" "" "abc")).1.page.Form.Errors
          "name" = some "Name already exists"
        ↔ ∃ p ∈ State.init.catalog, p.Name = stringsTrimSpace " Hammer")
    ∧ (mapGet (handle GoEnv.reference State.init
          (Request.postAddProduct " Hammer" "" "abc")).1.page.Form.Errors
          "name" = none
        ↔ ¬ ∃ p ∈ State.init.catalog, p.Name = stringsTrimSpace " Hammer")
    ∧ (mapGet (handle GoEnv.reference State.init
          (Request.postAddProduct " Hammer" "" "abc")).1.page.Form.Errors
          "price" = some "Invalid price"
        ↔ (GoEnv.reference.parseFloat "abc").2 = false)
    ∧ (mapGet (handle GoEnv.reference State.init
          (Request.postAddProduct " Hammer" "" "abc")).1.page.Form.Errors
          "price" = none
        ↔ (GoEnv.reference.parseFloat "abc").2 = true) :=
  create_invalid GoEnv.reference State.init " Hammer" "" "abc" (Or.inl (by decide))

/-! ## The handlers, seen from the catalog -/

theorem read_keeps {k : Nat} {h h' : Heap} (hk : HeapKeeps k h h') (s : Slice) (hs : s.arr < k) :
    h'.read s = h.read s := by
  unfold Heap.read
  rw [hk.2 s.arr hs]

theorem sliceOk_keeps {h h' : Heap} {s : Slice} (hs : SliceOk h s)
    (hk : HeapKeeps h.length h h') : SliceOk h' s :=
  ⟨Nat.lt_of_lt_of_le hs.arr_lt hk.1, by rw [hk.2 s.arr hs.arr_lt]; exact hs.len_le⟩

theorem read_modify (h : Heap) (s : Slice) (i : Nat) (f : Product → Product)
    (hs : s.arr < h.length) (hi : i < s.len) :
    (h.modify s i f).read s = (h.read s).modify f i := by
  unfold Heap.modify Heap.read
  rw [array_set]
  simp only [hs, and_self, if_true]
  apply List.ext_getElem?
  intro n
  simp only [List.getElem?_take, List.getElem?_modify]
  by_cases hn : n < s.len
  · simp [hn]
  · have : i ≠ n := by omega
    simp [hn, this]

theorem sliceOk_modify (h : Heap) (s : Slice) (i : Nat) (f : Product → Product)
    (hs : SliceOk h s) : SliceOk (h.modify s i f) s := by
  unfold Heap.modify
  refine ⟨by simpa using hs.arr_lt, ?_⟩
  rw [array_set]
  simp only [hs.arr_lt, and_self, if_true, List.length_modify]
  exact hs.len_le

theorem modify_keeps (h : Heap) (s : Slice) (i : Nat) (f : Product → Product) :
    (h.modify s i f).length = h.length := by
  simp [Heap.modify]

theorem validateProductID_cases (idStr : String) (h : Heap) (page : Page) :
    (∃ err, (validateProductID idStr h page).2.2 = some err)
    ∨ ∃ i : Nat, i < (h.read page.Data.Products).length
        ∧ validateProductID idStr h page = ((i : Int), 200, none) := by
  cases hparse : strconvAtoi idStr with
  | none => exact Or.inl ⟨_, by rw [validateProductID_invalid idStr h page hparse]⟩
  | some id =>
    by_cases hex : ∃ p ∈ h.read page.Data.Products, p.Id = id
    · obtain ⟨i, hi, hv, _⟩ := validateProductID_present idStr h page id hparse hex
      exact Or.inr ⟨i, hi, hv⟩
    · have hno : ∀ p ∈ h.read page.Data.Products, p.Id ≠ id := fun p hp hid => hex ⟨p, hp, hid⟩
      exact Or.inl ⟨_, by rw [validateProductID_absent idStr h page id hparse hno]⟩

theorem handle_create_ok (env : GoEnv) (st : State) (fname fdescr fprice : String)
    (hok : SliceOk st.heap st.page.Data.Products)
    (hvalid : (validateProductForm env (stringsTrimSpace fname)
      (stringsTrimRight fdescr trimCutset) fprice "" true st.heap st.page).2.1 = true) :
    (handle env st (Request.postAddProduct fname fdescr fprice)).1.id = wrapInt (st.id + 1)
    ∧ (handle env st (Request.postAddProduct fname fdescr fprice)).1.catalog
        = st.catalog ++ [{ Name := stringsTrimSpace fname,
                           Descr := stringsTrimRight fdescr trimCutset,
                           Price := F64.toInt env (F64.mul (env.parseFloat fprice).1 F64.hundred),
                           Id := wrapInt (st.id + 1) }]
    ∧ SliceOk (handle env st (Request.postAddProduct fname fdescr fprice)).1.heap
        (handle env st (Request.postAddProduct fname fdescr fprice)).1.page.Data.Products
    ∧ (handle env st (Request.postAddProduct fname fdescr fprice)).1.page.SearchText
        = st.page.SearchText
    ∧ (handle env st (Request.postAddProduct fname fdescr fprice)).1.page.Form = st.page.Form
    ∧ (handle env st (Request.postAddProduct fname fdescr fprice)).1.filtered
        = (if st.page.SearchText = "" then
            (handle env st (Request.postAddProduct fname fdescr fprice)).1.catalog
          else (handle env st (Request.postAddProduct fname fdescr fprice)).1.catalog.filter
            (matchesSearch env st.page.SearchText))
    ∧ (handle env st (Request.postAddProduct fname fdescr fprice)).2 = renderProductList := by
  have hpage := validateProductForm_page_ok env _ _ _ _ _ _ _ hvalid
  have hprice := validateProductForm_price env (stringsTrimSpace fname)
    (stringsTrimRight fdescr trimCutset) fprice "" true st.heap st.page
  simp only [handle, hvalid, hpage, hprice, Bool.not_true, Bool.false_eq_true, if_false,
    State.catalog, State.filtered, newProduct]
  generalize hp : ({ Name := stringsTrimSpace fname,
                     Descr := stringsTrimRight fdescr trimCutset,
                     Price := F64.toInt env (F64.mul (env.parseFloat fprice).1 F64.hundred),
                     Id := wrapInt (st.id + 1) } : Product) = p
  have hap_ok := goAppend_ok env st.heap st.page.Data.Products [p] hok
  have hap_read := goAppend_read env st.heap st.page.Data.Products [p] hok.len_le
  generalize hap : goAppend env st.heap st.page.Data.Products [p] = ap at hap_ok hap_read ⊢
  generalize hpg : ({ Data := { Products := ap.2 }, Form := st.page.Form,
                      SearchText := st.page.SearchText,
                      FilteredProducts := st.page.FilteredProducts } : Page) = page1
  have hp1 : page1.Data.Products = ap.2 := by rw [← hpg]
  have hp2 : page1.SearchText = st.page.SearchText := by rw [← hpg]
  have hp3 : page1.Form = st.page.Form := by rw [← hpg]
  obtain ⟨f1, f2, f3⟩ := filteredProducts_spec env ap.1 page1
  rw [hp1, hp2] at f3
  have hrd : (page1.filteredProducts env ap.1).1.read ap.2 = st.heap.read st.page.Data.Products ++ [p] := by
    rw [read_keeps f1 ap.2 hap_ok.arr_lt, hap_read]
  refine ⟨trivial, hrd, sliceOk_keeps hap_ok f1, trivial, trivial, ?_, trivial⟩
  rw [hrd, f3, hap_read]

theorem handle_update_ok (env : GoEnv) (st : State) (idStr fname fdescr fprice : String) (i : Nat)
    (hok : SliceOk st.heap st.page.Data.Products)
    (hi : i < st.catalog.length)
    (hv : validateProductID idStr st.heap st.page = ((i : Int), 200, none))
    (hvalid : (validateProductForm env (stringsTrimSpace fname)
      (stringsTrimRight fdescr trimCutset) fprice idStr
      ((st.catalog.getD i Product.zero).Name != stringsTrimSpace fname) st.heap st.page).2.1 = true) :
    (handle env st (Request.postEditProduct idStr fname fdescr fprice)).1.id = st.id
    ∧ (handle env st (Request.postEditProduct idStr fname fdescr fprice)).1.catalog
        = st.catalog.modify (Product.edit (stringsTrimSpace fname)
            (stringsTrimRight fdescr trimCutset)
            (F64.toInt env (F64.mul (env.parseFloat fprice).1 F64.hundred))) i
    ∧ SliceOk (handle env st (Request.postEditProduct idStr fname fdescr fprice)).1.heap
        (handle env st (Request.postEditProduct idStr fname fdescr fprice)).1.page.Data.Products
    ∧ (handle env st (Request.postEditProduct idStr fname fdescr fprice)).1.page.SearchText
        = st.page.SearchText
    ∧ (handle env st (Request.postEditProduct idStr fname fdescr fprice)).1.page.Form = st.page.Form
    ∧ (handle env st (Request.postEditProduct idStr fname fdescr fprice)).1.filtered
        = (if st.page.SearchText = "" then
            (handle env st (Request.postEditProduct idStr fname fdescr fprice)).1.catalog
          else (handle env st (Request.postEditProduct idStr fname fdescr fprice)).1.catalog.filter
            (matchesSearch env st.page.SearchText))
    ∧ (handle env st (Request.postEditProduct idStr fname fdescr fprice)).2 = renderProductList := by
  unfold State.catalog at hi hvalid
  have hpage := validateProductForm_page_ok env _ _ _ _ _ _ _ hvalid
  have hprice := validateProductForm_price env (stringsTrimSpace fname)
    (stringsTrimRight fdescr trimCutset) fprice idStr
    (((st.heap.read st.page.Data.Products).getD i Product.zero).Name != stringsTrimSpace fname)
    st.heap st.page
  simp only [handle, hv, Int.toNat_ofNat, hvalid, hpage, hprice, Bool.not_true, Bool.false_eq_true,
    if_false, State.catalog, State.filtered]
  generalize Product.edit (stringsTrimSpace fname) (stringsTrimRight fdescr trimCutset)
    (F64.toInt env (F64.mul (env.parseFloat fprice).1 F64.hundred)) = f
  have hlen : i < st.page.Data.Products.len := by
    have := hi
    simp only [Heap.read, List.length_take] at this
    omega
  have hm_read := read_modify st.heap st.page.Data.Products i f hok.arr_lt hlen
  have hm_ok := sliceOk_modify st.heap st.page.Data.Products i f hok
  have hm_len := modify_keeps st.heap st.page.Data.Products i f
  generalize st.heap.modify st.page.Data.Products i f = heap1 at hm_read hm_ok hm_len ⊢
  obtain ⟨f1, f2, f3⟩ := filteredProducts_spec env heap1 st.page
  have hrd : (st.page.filteredProducts env heap1).1.read st.page.Data.Products
      = (st.heap.read st.page.Data.Products).modify f i := by
    rw [read_keeps f1 st.page.Data.Products hm_ok.arr_lt, hm_read]
  refine ⟨trivial, hrd, sliceOk_keeps hm_ok f1, trivial, trivial, ?_, trivial⟩
  rw [hrd, f3, hm_read]

theorem handle_delete_ok (env : GoEnv) (st : State) (idStr : String) (i : Nat)
    (hok : SliceOk st.heap st.page.Data.Products)
    (hi : i < st.catalog.length)
    (hv : validateProductID idStr st.heap st.page = ((i : Int), 200, none)) :
    (handle env st (Request.postDeleteProduct idStr)).1.id = st.id
    ∧ (handle env st (Request.postDeleteProduct idStr)).1.catalog = st.catalog.eraseIdx i
    ∧ SliceOk (handle env st (Request.postDeleteProduct idStr)).1.heap
        (handle env st (Request.postDeleteProduct idStr)).1.page.Data.Products
    ∧ (handle env st (Request.postDeleteProduct idStr)).1.page.SearchText = st.page.SearchText
    ∧ (handle env st (Request.postDeleteProduct idStr)).1.page.Form = st.page.Form
    ∧ (handle env st (Request.postDeleteProduct idStr)).1.page.FilteredProducts
        = st.page.FilteredProducts
    ∧ (handle env st (Request.postDeleteProduct idStr)).2.status = 200 := by
  unfold State.catalog at hi
  have hlen : i < st.page.Data.Products.len := by
    have := hi
    simp only [Heap.read, List.length_take] at this
    omega
  have hcap : i ≤ (st.heap.array st.page.Data.Products.arr).length := by
    have := hok.len_le
    omega
  simp only [handle, hv, Int.toNat_ofNat, State.catalog]
  have hpre : SliceOk st.heap { arr := st.page.Data.Products.arr, len := i } :=
    ⟨hok.arr_lt, hcap⟩
  have hap_ok := goAppend_ok env st.heap { arr := st.page.Data.Products.arr, len := i }
    ((st.heap.read st.page.Data.Products).drop (i + 1)) hpre
  have hap_read := goAppend_read env st.heap { arr := st.page.Data.Products.arr, len := i }
    ((st.heap.read st.page.Data.Products).drop (i + 1)) hcap
  refine ⟨trivial, ?_, hap_ok, trivial, trivial, trivial, trivial⟩
  rw [hap_read, List.eraseIdx_eq_take_drop_succ]
  congr 1
  simp only [Heap.read, List.take_take]
  rw [Nat.min_eq_left (Nat.le_of_lt hlen)]

theorem handle_search (env : GoEnv) (st : State) (search : String)
    (hok : SliceOk st.heap st.page.Data.Products) :
    (handle env st (Request.postSearch search)).1.id = st.id
    ∧ (handle env st (Request.postSearch search)).1.catalog = st.catalog
    ∧ SliceOk (handle env st (Request.postSearch search)).1.heap
        (handle env st (Request.postSearch search)).1.page.Data.Products
    ∧ (handle env st (Request.postSearch search)).1.page.SearchText
        = stringsTrimRight search trimCutset
    ∧ (handle env st (Request.postSearch search)).1.page.Form = st.page.Form
    ∧ (handle env st (Request.postSearch search)).1.filtered
        = (if stringsTrimRight search trimCutset = "" then st.catalog
          else st.catalog.filter (matchesSearch env (stringsTrimRight search trimCutset)))
    ∧ (handle env st (Request.postSearch search)).2.status = 200 := by
  simp only [handle, State.catalog, State.filtered]
  generalize hpg : ({ Data := st.page.Data, Form := st.page.Form,
                      SearchText := stringsTrimRight search trimCutset,
                      FilteredProducts := st.page.FilteredProducts } : Page) = page1
  have hp1 : page1.Data = st.page.Data := by rw [← hpg]
  have hp2 : page1.SearchText = stringsTrimRight search trimCutset := by rw [← hpg]
  obtain ⟨f1, f2, f3⟩ := filteredProducts_spec env st.heap page1
  rw [hp1, hp2] at f3
  exact ⟨trivial, read_keeps f1 _ hok.arr_lt, sliceOk_keeps hok f1, trivial, trivial, f3, trivial⟩

theorem step_same {st st' : State} (h1 : st'.id = st.id) (h2 : st'.heap = st.heap)
    (h3 : st'.page.Data = st.page.Data) (hok : SliceOk st.heap st.page.Data.Products) :
    CatalogStep (st.id, st.catalog) (st'.id, st'.catalog)
    ∧ SliceOk st'.heap st'.page.Data.Products := by
  unfold State.catalog
  rw [h1, h2, h3]
  exact ⟨CatalogStep.same _ _, hok⟩

theorem handle_invalid_id (env : GoEnv) (st : State) (idStr : String) (err : String)
    (hv : (validateProductID idStr st.heap st.page).2.2 = some err) :
    (∀ hx, (handle env st (Request.getDeleteProduct hx idStr)).1 = st)
    ∧ (∀ hx, (handle env st (Request.getEditProduct hx idStr)).1 = st)
    ∧ (∀ n d p, (handle env st (Request.postEditProduct idStr n d p)).1 = st)
    ∧ (handle env st (Request.postDeleteProduct idStr)).1 = st := by
  refine ⟨fun hx => ?_, fun hx => ?_, fun n d p => ?_, ?_⟩
  · simp only [handle, hv]; split <;> rfl
  · simp only [handle, hv]; split <;> rfl
  · simp only [handle, hv]
  · simp only [handle, hv]

theorem handle_get_form (env : GoEnv) (st : State) (hx idStr : String) (i : Nat)
    (hv : validateProductID idStr st.heap st.page = ((i : Int), 200, none)) :
    ((handle env st (Request.getDeleteProduct hx idStr)).1.id = st.id
      ∧ (handle env st (Request.getDeleteProduct hx idStr)).1.heap = st.heap
      ∧ (handle env st (Request.getDeleteProduct hx idStr)).1.page.Data = st.page.Data)
    ∧ ((handle env st (Request.getEditProduct hx idStr)).1.id = st.id
      ∧ (handle env st (Request.getEditProduct hx idStr)).1.heap = st.heap
      ∧ (handle env st (Request.getEditProduct hx idStr)).1.page.Data = st.page.Data) := by
  constructor
  · simp only [handle, hv]; split <;> exact ⟨rfl, rfl, rfl⟩
  · simp only [handle, hv]; split <;> exact ⟨rfl, rfl, rfl⟩

theorem handle_form_invalid (env : GoEnv) (st : State) (name descr price idStr : String)
    (checkName : Bool) :
    ({ st with page := (validateProductForm env name descr price idStr checkName
        st.heap st.page).2.2 } : State).id = st.id
    ∧ ({ st with page := (validateProductForm env name descr price idStr checkName
        st.heap st.page).2.2 } : State).heap = st.heap
    ∧ ({ st with page := (validateProductForm env name descr price idStr checkName
        st.heap st.page).2.2 } : State).page.Data = st.page.Data :=
  ⟨rfl, rfl, (validateProductForm_data env name descr price idStr checkName st.heap st.page).1⟩

/-- Every request acts on counter and catalog by one `CatalogStep`, and leaves
the catalog slice well-formed. -/
theorem handle_step (env : GoEnv) (st : State) (r : Request)
    (hok : SliceOk st.heap st.page.Data.Products) :
    CatalogStep (st.id, st.catalog) ((handle env st r).1.id, (handle env st r).1.catalog)
    ∧ SliceOk (handle env st r).1.heap (handle env st r).1.page.Data.Products := by
  cases r with
  | getRoot => exact step_same rfl rfl rfl hok
  | getProductList hx cookie => exact step_same rfl rfl rfl hok
  | getAddProduct hx =>
    refine step_same ?_ ?_ ?_ hok <;> (simp only [handle]; split <;> rfl)
  | getDeleteProduct hx idStr =>
    rcases validateProductID_cases idStr st.heap st.page with ⟨err, hv⟩ | ⟨i, _, hv⟩
    · rw [(handle_invalid_id env st idStr err hv).1 hx]
      exact step_same rfl rfl rfl hok
    · obtain ⟨h1, h2, h3⟩ := (handle_get_form env st hx idStr i hv).1
      exact step_same h1 h2 h3 hok
  | getEditProduct hx idStr =>
    rcases validateProductID_cases idStr st.heap st.page with ⟨err, hv⟩ | ⟨i, _, hv⟩
    · rw [(handle_invalid_id env st idStr err hv).2.1 hx]
      exact step_same rfl rfl rfl hok
    · obtain ⟨h1, h2, h3⟩ := (handle_get_form env st hx idStr i hv).2
      exact step_same h1 h2 h3 hok
  | postSearch search =>
    obtain ⟨h1, h2, h3, _⟩ := handle_search env st search hok
    rw [h1, h2]
    exact ⟨CatalogStep.same _ _, h3⟩
  | postAddProduct fname fdescr fprice =>
    cases hvalid : (validateProductForm env (stringsTrimSpace fname)
        (stringsTrimRight fdescr trimCutset) fprice "" true st.heap st.page).2.1 with
    | false =>
      have hstate : (handle env st (Request.postAddProduct fname fdescr fprice)).1
          = { st with page := (validateProductForm env (stringsTrimSpace fname)
              (stringsTrimRight fdescr trimCutset) fprice "" true st.heap st.page).2.2 } := by
        simp [handle, hvalid]
      rw [hstate]
      obtain ⟨h1, h2, h3⟩ := handle_form_invalid env st (stringsTrimSpace fname)
        (stringsTrimRight fdescr trimCutset) fprice "" true
      exact step_same h1 h2 h3 hok
    | true =>
      obtain ⟨h1, h2, h3, _⟩ := handle_create_ok env st fname fdescr fprice hok hvalid
      rw [h1, h2]
      refine ⟨CatalogStep.create _ _ _ _ _ ?_, h3⟩
      rw [validateProductForm_valid] at hvalid
      simp only [if_true, Bool.and_eq_true, Bool.not_eq_true', Data.hasName] at hvalid
      exact hvalid.2
  | postEditProduct idStr fname fdescr fprice =>
    rcases validateProductID_cases idStr st.heap st.page with ⟨err, hv⟩ | ⟨i, hi, hv⟩
    · rw [(handle_invalid_id env st idStr err hv).2.2.1 fname fdescr fprice]
      exact step_same rfl rfl rfl hok
    · cases hvalid : (validateProductForm env (stringsTrimSpace fname)
          (stringsTrimRight fdescr trimCutset) fprice idStr
          ((st.catalog.getD i Product.zero).Name != stringsTrimSpace fname) st.heap st.page).2.1 with
      | false =>
        have hstate : (handle env st (Request.postEditProduct idStr fname fdescr fprice)).1
            = { st with page := (validateProductForm env (stringsTrimSpace fname)
                (stringsTrimRight fdescr trimCutset) fprice idStr
                ((st.catalog.getD i Product.zero).Name != stringsTrimSpace fname)
                st.heap st.page).2.2 } := by
          unfold State.catalog at hvalid ⊢
          simp only [handle, hv, Int.toNat_ofNat, hvalid, Bool.not_false, if_true]
        rw [hstate]
        obtain ⟨h1, h2, h3⟩ := handle_form_invalid env st (stringsTrimSpace fname)
          (stringsTrimRight fdescr trimCutset) fprice idStr
          ((st.catalog.getD i Product.zero).Name != stringsTrimSpace fname)
        exact step_same h1 h2 h3 hok
      | true =>
        obtain ⟨h1, h2, h3, _⟩ := handle_update_ok env st idStr fname fdescr fprice i hok hi hv hvalid
        rw [h1, h2]
        refine ⟨CatalogStep.update _ _ _ _ _ _ hi ?_, h3⟩
        rw [validateProductForm_valid] at hvalid
        simp only [Bool.and_eq_true] at hvalid
        have hname := hvalid.2
        by_cases hsame : (st.catalog.getD i Product.zero).Name = stringsTrimSpace fname
        · left
          have hi' : i < st.catalog.length := hi
          rw [List.getD_eq_getElem _ _ hi'] at hsame
          simp [List.getElem?_eq_getElem hi', hsame]
        · right
          have hne : ((st.catalog.getD i Product.zero).Name != stringsTrimSpace fname) = true := by
            simpa using hsame
          rw [hne] at hname
          simpa [Data.hasName] using hname
  | postDeleteProduct idStr =>
    rcases validateProductID_cases idStr st.heap st.page with ⟨err, hv⟩ | ⟨i, hi, hv⟩
    · rw [(handle_invalid_id env st idStr err hv).2.2.2]
      exact step_same rfl rfl rfl hok
    · obtain ⟨h1, h2, h3, _⟩ := handle_delete_ok env st idStr i hok hi hv
      rw [h1, h2]
      exact ⟨CatalogStep.delete _ _ _ hi, h3⟩

/-! ## Invariants of counter and catalog -/

theorem map_modify_same {β : Type} (g : Product → β) (f : Product → Product)
    (hg : ∀ p, g (f p) = g p) (l : List Product) (i : Nat) :
    (l.modify f i).map g = l.map g := by
  induction l generalizing i with
  | nil => cases i <;> rfl
  | cons p l ih =>
    cases i with
    | zero => simp [List.modify, hg]
    | succ i => simpa [List.modify] using ih i

theorem map_name_modify_edit (name descr : String) (price : Int) (l : List Product) (i : Nat) :
    (l.modify (Product.edit name descr price) i).map Product.Name
      = (l.map Product.Name).set i name := by
  induction l generalizing i with
  | nil => cases i <;> rfl
  | cons p l ih =>
    cases i with
    | zero => simp [List.modify, Product.edit]
    | succ i => simpa [List.modify] using ih i

theorem nodup_set_of_not_mem {α : Type} (l : List α) (i : Nat) (a : α)
    (hl : l.Nodup) (ha : a ∉ l) : (l.set i a).Nodup := by
  induction l generalizing i with
  | nil => simp
  | cons x l ih =>
    have hx : x ∉ l := (List.nodup_cons.mp hl).1
    have hl' : l.Nodup := (List.nodup_cons.mp hl).2
    have hal : a ∉ l := fun h => ha (List.mem_cons_of_mem _ h)
    have hax : x ≠ a := fun h => ha (h ▸ List.mem_cons_self _ _)
    cases i with
    | zero =>
      simp only [List.set_cons_zero]
      exact List.nodup_cons.mpr ⟨hal, hl'⟩
    | succ i =>
      simp only [List.set_cons_succ]
      refine List.nodup_cons.mpr ⟨fun hmem => ?_, ih i hl' hal⟩
      rcases List.mem_or_eq_of_mem_set hmem with h1 | h1
      · exact hx h1
      · exact hax h1

theorem set_same {α : Type} (l : List α) (i : Nat) (a : α) (h : l[i]? = some a) :
    l.set i a = l := by
  induction l generalizing i with
  | nil => rfl
  | cons x l ih =>
    cases i with
    | zero => simp at h; simp [h]
    | succ i => simp at h; simp [ih i h]

theorem wrapInt_of_range (x : Int) (h1 : -(2 ^ 63 : Int) ≤ x) (h2 : x < 2 ^ 63) :
    wrapInt x = x := by
  unfold wrapInt
  omega

/-- Names stay pairwise distinct under every step, whatever the counter does. -/
theorem names_step {s t : Int × List Product} (hs : (s.2.map Product.Name).Nodup)
    (hst : CatalogStep s t) : (t.2.map Product.Name).Nodup := by
  cases hst with
  | same id cat => exact hs
  | create id cat name descr price hfree =>
    show ((cat ++ _).map Product.Name).Nodup
    rw [List.map_append, List.nodup_append]
    refine ⟨hs, by simp, ?_⟩
    intro a ha hb
    simp only [List.map_cons, List.map_nil, List.mem_singleton] at hb
    obtain ⟨p, hp, hpa⟩ := List.mem_map.mp ha
    have hyes : hasNameIn name cat = true := (hasNameIn_iff name cat).mpr ⟨p, hp, by rw [hpa, hb]⟩
    rw [hfree] at hyes
    exact absurd hyes (by decide)
  | update id cat i name descr price hi hname =>
    show ((cat.modify _ i).map Product.Name).Nodup
    rw [map_name_modify_edit]
    rcases hname with h1 | h1
    · rw [set_same _ _ _ (by simpa using h1)]
      exact hs
    · apply nodup_set_of_not_mem _ _ _ hs
      intro hmem2
      obtain ⟨p, hp, hpn⟩ := List.mem_map.mp hmem2
      have hyes : hasNameIn name cat = true := (hasNameIn_iff name cat).mpr ⟨p, hp, hpn⟩
      rw [h1] at hyes
      exact absurd hyes (by decide)
  | delete id cat i hi =>
    exact hs.sublist ((List.eraseIdx_sublist cat i).map _)

/-- Ids stay positive, bounded by the counter and pairwise distinct under a
step taken while the counter is below the largest `int`. -/
theorem CatalogInv.step {s t : Int × List Product} (hs : CatalogInv s) (hst : CatalogStep s t)
    (hb : s.1 < 2 ^ 63 - 1) : CatalogInv t ∧ s.1 ≤ t.1 ∧ t.1 ≤ s.1 + 1 := by
  cases hst with
  | same id cat => exact ⟨hs, Int.le_refl _, by show id ≤ id + 1; omega⟩
  | create id cat name descr price hfree =>
    have hc : 0 < id := hs.counter_pos
    have hb' : id < 2 ^ 63 - 1 := hb
    have hle : ∀ p ∈ cat, p.Id ≤ id := hs.id_le
    have hw : wrapInt (id + 1) = id + 1 := wrapInt_of_range _ (by omega) (by omega)
    simp only [hw]
    refine ⟨⟨by show 0 < id + 1; omega, ?_, ?_, ?_⟩, by show id ≤ id + 1; omega, Int.le_refl _⟩
    · intro p hp
      rcases List.mem_append.mp hp with h1 | h1
      · exact hs.id_pos p h1
      · simp only [List.mem_singleton] at h1
        subst h1
        show 0 < id + 1
        omega
    · intro p hp
      show p.Id ≤ id + 1
      rcases List.mem_append.mp hp with h1 | h1
      · have := hle p h1
        omega
      · simp only [List.mem_singleton] at h1
        subst h1
        exact Int.le_refl _
    · show ((cat ++ _).map Product.Id).Nodup
      rw [List.map_append, List.nodup_append]
      refine ⟨hs.ids_nodup, by simp, ?_⟩
      intro a ha hb2
      simp only [List.map_cons, List.map_nil, List.mem_singleton] at hb2
      obtain ⟨p, hp, hpa⟩ := List.mem_map.mp ha
      have := hle p hp
      omega
  | update id cat i name descr price hi hname =>
    have hids : (cat.modify (Product.edit name descr price) i).map Product.Id = cat.map Product.Id :=
      map_modify_same Product.Id (Product.edit name descr price) (fun _ => rfl) cat i
    have hmem : ∀ p ∈ cat.modify (Product.edit name descr price) i, ∃ q ∈ cat, q.Id = p.Id := by
      intro p hp
      have : p.Id ∈ (cat.modify (Product.edit name descr price) i).map Product.Id :=
        List.mem_map_of_mem _ hp
      rw [hids] at this
      exact List.mem_map.mp this
    refine ⟨⟨hs.counter_pos, ?_, ?_, ?_⟩, Int.le_refl _, by show id ≤ id + 1; omega⟩
    · intro p hp
      obtain ⟨q, hq, hqp⟩ := hmem p hp
      rw [← hqp]
      exact hs.id_pos q hq
    · intro p hp
      obtain ⟨q, hq, hqp⟩ := hmem p hp
      rw [← hqp]
      exact hs.id_le q hq
    · show ((cat.modify _ i).map Product.Id).Nodup
      rw [hids]
      exact hs.ids_nodup
  | delete id cat i hi =>
    have hsub : (cat.eraseIdx i).Sublist cat := List.eraseIdx_sublist cat i
    exact ⟨⟨hs.counter_pos, fun p hp => hs.id_pos p (hsub.subset hp),
      fun p hp => hs.id_le p (hsub.subset hp), hs.ids_nodup.sublist (hsub.map _)⟩,
      Int.le_refl _, by show id ≤ id + 1; omega⟩

/-- The initial state: the catalog slice is well-formed, names are distinct,
counter and catalog satisfy `CatalogInv`. -/
theorem init_good :
    SliceOk State.init.heap State.init.page.Data.Products
    ∧ (State.init.catalog.map Product.Name).Nodup
    ∧ CatalogInv (State.init.id, State.init.catalog) :=
  ⟨⟨by decide, by decide⟩, by decide, ⟨by decide, by decide, by decide, by decide⟩⟩

theorem runFrom_good (env : GoEnv) (rs : List Request) :
    ∀ st : State, SliceOk st.heap st.page.Data.Products →
      (st.catalog.map Product.Name).Nodup →
      SliceOk (runFrom env st rs).heap (runFrom env st rs).page.Data.Products
      ∧ ((runFrom env st rs).catalog.map Product.Name).Nodup := by
  induction rs with
  | nil => intro st h1 h2; exact ⟨h1, h2⟩
  | cons r rs ih =>
    intro st h1 h2
    obtain ⟨hstep, hok⟩ := handle_step env st r h1
    exact ih (handle env st r).1 hok (names_step h2 hstep)

/-- Along a run that is too short for the counter to reach the largest `int`,
`CatalogInv` is kept and the counter grows by at most one per request. -/
theorem runFrom_ids (env : GoEnv) (rs : List Request) :
    ∀ st : State, SliceOk st.heap st.page.Data.Products → CatalogInv (st.id, st.catalog) →
      st.id + (rs.length : Int) < 2 ^ 63 →
      CatalogInv ((runFrom env st rs).id, (runFrom env st rs).catalog)
      ∧ st.id ≤ (runFrom env st rs).id
      ∧ (runFrom env st rs).id ≤ st.id + (rs.length : Int) := by
  induction rs with
  | nil => intro st _ h2 _; exact ⟨h2, Int.le_refl _, by simp [runFrom]⟩
  | cons r rs ih =>
    intro st h1 h2 hb
    simp only [List.length_cons, Nat.cast_add, Nat.cast_one] at hb
    obtain ⟨hstep, hok⟩ := handle_step env st r h1
    have hb1 : st.id < 2 ^ 63 - 1 := by
      have : (0 : Int) ≤ (rs.length : Int) := Int.ofNat_nonneg _
      omega
    obtain ⟨hinv, hlo, hhi⟩ := h2.step hstep hb1
    have hlo' : st.id ≤ (handle env st r).1.id := hlo
    have hhi' : (handle env st r).1.id ≤ st.id + 1 := hhi
    obtain ⟨g1, g2, g3⟩ := ih (handle env st r).1 hok hinv (by omega)
    refine ⟨g1, ?_, ?_⟩
    · exact Int.le_trans hlo' g2
    · have g3' : (runFrom env st (r :: rs)).id
          ≤ (handle env st r).1.id + (rs.length : Int) := g3
      simp only [List.length_cons, Nat.cast_add, Nat.cast_one]
      omega

theorem run_eq_runFrom (env : GoEnv) (rs : List Request) : run env rs = runFrom env State.init rs :=
  rfl

theorem runFrom_append (env : GoEnv) (st : State) (rs ss : List Request) :
    runFrom env st (rs ++ ss) = runFrom env (runFrom env st rs) ss := by
  simp [runFrom, List.foldl_append]

theorem run_good (env : GoEnv) (rs : List Request) :
    SliceOk (run env rs).heap (run env rs).page.Data.Products
    ∧ ((run env rs).catalog.map Product.Name).Nodup :=
  runFrom_good env rs State.init init_good.1 init_good.2.1

/-- A run of fewer than `2^63 - 1` requests keeps `CatalogInv`, and its counter
is at most one more than the number of requests. -/
theorem run_ids (env : GoEnv) (rs : List Request) (hlen : rs.length < 2 ^ 63 - 1) :
    CatalogInv ((run env rs).id, (run env rs).catalog)
    ∧ (run env rs).id ≤ 1 + (rs.length : Int) := by
  have hb : State.init.id + (rs.length : Int) < 2 ^ 63 := by
    have h1 : State.init.id = 1 := by decide
    rw [h1]
    omega
  obtain ⟨g1, _, g3⟩ := runFrom_ids env rs State.init init_good.1 init_good.2.2 hb
  have h1 : State.init.id = 1 := by decide
  rw [h1] at g3
  exact ⟨g1, g3⟩

/-! ## Invariants of the reachable states -/

theorem create_status (env : GoEnv) (st : State) (fname fdescr fprice : String)
    (hs : (handle env st (Request.postAddProduct fname fdescr fprice)).2.status = 200) :
    (validateProductForm env (stringsTrimSpace fname) (stringsTrimRight fdescr trimCutset)
      fprice "" true st.heap st.page).2.1 = true := by
  cases hvalid : (validateProductForm env (stringsTrimSpace fname)
      (stringsTrimRight fdescr trimCutset) fprice "" true st.heap st.page).2.1 with
  | true => rfl
  | false =>
    simp only [handle, hvalid, Bool.not_false, if_true, respRender] at hs
    exact absurd hs (by decide)

theorem catalog_id_le_later (env : GoEnv) (rs : List Request) (hlen : rs.length < 2 ^ 63 - 1)
    (k : Nat) : ∀ q ∈ (run env (rs.take k)).catalog, q.Id ≤ (run env rs).id := by
  intro q hq
  have hsplit : (rs.take k).length + (rs.drop k).length = rs.length := by
    rw [← List.length_append, List.take_append_drop]
  have hlen1 : (rs.take k).length < 2 ^ 63 - 1 := by omega
  have hgood := run_good env (rs.take k)
  obtain ⟨hinv, hid⟩ := run_ids env (rs.take k) hlen1
  have hle : q.Id ≤ (run env (rs.take k)).id := hinv.id_le q hq
  have hmono := (runFrom_ids env (rs.drop k) (run env (rs.take k)) hgood.1 hinv
    (by omega)).2.1
  have hrun : runFrom env (run env (rs.take k)) (rs.drop k) = run env rs := by
    rw [run_eq_runFrom, ← runFrom_append, List.take_append_drop]
    rfl
  rw [hrun] at hmono
  exact Int.le_trans hle hmono

/-- C3 as amended: in every state reached from the initial page by fewer than
`2^63 - 1` requests, the create about to be served counted in, the ids of
the catalog are pairwise distinct, and a create that succeeds appends a
product whose id is greater than the id of every product of every catalog
there has been so far (so also of the products deleted since). -/
theorem ids_distinct_and_fresh (env : GoEnv) (rs : List Request)
    (hlen : rs.length + 1 < 2 ^ 63 - 1) :
    ((run env rs).catalog.map Product.Id).Nodup
    ∧ ∀ fname fdescr fprice : String,
        (handle env (run env rs) (Request.postAddProduct fname fdescr fprice)).2.status = 200 →
        ∃ p : Product,
          (run env (rs ++ [Request.postAddProduct fname fdescr fprice])).catalog
            = (run env rs).catalog ++ [p]
          ∧ ∀ k : Nat, ∀ q ∈ (run env (rs.take k)).catalog, q.Id < p.Id := by
  have hgood := run_good env rs
  obtain ⟨hinv, hid⟩ := run_ids env rs (by omega)
  refine ⟨hinv.ids_nodup, fun fname fdescr fprice hs => ?_⟩
  have hvalid := create_status env (run env rs) fname fdescr fprice hs
  obtain ⟨_, h2, _⟩ := handle_create_ok env (run env rs) fname fdescr fprice hgood.1 hvalid
  have hpos : 0 < (run env rs).id := hinv.counter_pos
  have hw : wrapInt ((run env rs).id + 1) = (run env rs).id + 1 :=
    wrapInt_of_range _ (by omega) (by omega)
  rw [hw] at h2
  refine ⟨{ Name := stringsTrimSpace fname,
             Descr := stringsTrimRight fdescr trimCutset,
             Price := F64.toInt env (F64.mul (env.parseFloat fprice).1 F64.hundred),
             Id := (run env rs).id + 1 }, ?_, fun k q hq => ?_⟩
  · have hrun : run env (rs ++ [Request.postAddProduct fname fdescr fprice])
        = (handle env (run env rs) (Request.postAddProduct fname fdescr fprice)).1 := by
      simp [run, List.foldl_append]
    rw [hrun]
    exact h2
  · have := catalog_id_le_later env rs (by omega) k q hq
    show q.Id < (run env rs).id + 1
    omega

/-- C3 as amended, on a run that deletes: after creating "Saw" (id 2) and
deleting it, the next product gets an id above 1 and 2. -/
theorem ids_distinct_and_fresh_witness :
    ∃ p : Product,
      (run GoEnv.reference ([Request.postAddProduct "Saw" "Hand saw" "12.50",
          Request.postDeleteProduct "2"] ++ [Request.postAddProduct "Axe" "" "30"])).catalog
        = (run GoEnv.reference [Request.postAddProduct "Saw" "Hand saw" "12.50",
            Request.postDeleteProduct "2"]).catalog ++ [p]
      ∧ ∀ k : Nat, ∀ q ∈ (run GoEnv.reference
          ([Request.postAddProduct "Saw" "Hand saw" "12.50",
            Request.postDeleteProduct "2"].take k)).catalog, q.Id < p.Id :=
  (ids_distinct_and_fresh GoEnv.reference [Request.postAddProduct "Saw" "Hand saw" "12.50",
    Request.postDeleteProduct "2"] (by decide)).2 "Axe" "" "30" (by decide)

theorem update_refused_iff (env : GoEnv) (st : State) (idStr fname fdescr fprice : String)
    (i : Nat) (hv : validateProductID idStr st.heap st.page = ((i : Int), 200, none)) :
    (handle env st (Request.postEditProduct idStr fname fdescr fprice)).2.status = 422
      ↔ ((env.parseFloat fprice).2 = false
        ∨ ((st.catalog.getD i Product.zero).Name ≠ stringsTrimSpace fname
          ∧ ∃ p ∈ st.catalog, p.Name = stringsTrimSpace fname)) := by
  have hname : st.page.Data.hasName st.heap (stringsTrimSpace fname) = true ↔
      ∃ p ∈ st.catalog, p.Name = stringsTrimSpace fname := by
    unfold Data.hasName State.catalog
    exact hasNameIn_iff _ _
  rw [← hname]
  unfold State.catalog
  have hval := validateProductForm_valid env (stringsTrimSpace fname)
    (stringsTrimRight fdescr trimCutset) fprice idStr
    (((st.heap.read st.page.Data.Products).getD i Product.zero).Name != stringsTrimSpace fname)
    st.heap st.page
  cases hvalid : (validateProductForm env (stringsTrimSpace fname)
      (stringsTrimRight fdescr trimCutset) fprice idStr
      (((st.heap.read st.page.Data.Products).getD i Product.zero).Name
        != stringsTrimSpace fname) st.heap st.page).2.1 with
  | false =>
    simp only [handle, hv, Int.toNat_ofNat, hvalid, Bool.not_false, if_true, respRender, true_iff]
    rw [hvalid] at hval
    by_cases hsame : ((st.heap.read st.page.Data.Products).getD i Product.zero).Name
        = stringsTrimSpace fname
    · have hb : (((st.heap.read st.page.Data.Products).getD i Product.zero).Name
          != stringsTrimSpace fname) = false := by simpa using hsame
      rw [hb] at hval
      left
      simpa using hval.symm
    · have hb : (((st.heap.read st.page.Data.Products).getD i Product.zero).Name
          != stringsTrimSpace fname) = true := by simpa using hsame
      rw [hb] at hval
      cases hp : (env.parseFloat fprice).2 with
      | false => exact Or.inl rfl
      | true =>
        right
        rw [hp] at hval
        refine ⟨hsame, ?_⟩
        simpa using hval.symm
  | true =>
    simp only [handle, hv, Int.toNat_ofNat, hvalid, Bool.not_true, Bool.false_eq_true, if_false,
      renderProductList]
    rw [hvalid] at hval
    have hval' := hval.symm
    simp only [Bool.and_eq_true] at hval'
    constructor
    · intro h
      exact absurd h (by decide)
    · rintro (h | ⟨hne, hex⟩)
      · rw [hval'.1] at h
        exact absurd h (by decide)
      · have hb : (((st.heap.read st.page.Data.Products).getD i Product.zero).Name
            != stringsTrimSpace fname) = true := by simpa using hne
        have h2 := hval'.2
        rw [hb, hex] at h2
        exact absurd h2 (by decide)

theorem create_refused_of_name (env : GoEnv) (st : State) (fname fdescr fprice : String)
    (hex : ∃ p ∈ st.catalog, p.Name = stringsTrimSpace fname) :
    (handle env st (Request.postAddProduct fname fdescr fprice)).2.status = 422 := by
  have hname : st.page.Data.hasName st.heap (stringsTrimSpace fname) = true := by
    unfold Data.hasName
    exact (hasNameIn_iff _ _).mpr hex
  have hv : (validateProductForm env (stringsTrimSpace fname) (stringsTrimRight fdescr trimCutset)
      fprice "" true st.heap st.page).2.1 = false := by
    rw [validateProductForm_valid]
    simp [hname]
  simp only [handle, hv, Bool.not_false, if_true, respRender]

/-- C7: in every state reached from the initial page no two products of the
catalog have the same name; a create is refused (422) whenever its trimmed
name is in the catalog, and an update of an existing product is refused
exactly when its price does not parse or its trimmed name differs from the
product's current name and is in the catalog. -/
theorem names_distinct (env : GoEnv) (rs : List Request) :
    ((run env rs).catalog.map Product.Name).Nodup
    ∧ (∀ fname fdescr fprice : String,
        (∃ p ∈ (run env rs).catalog, p.Name = stringsTrimSpace fname) →
        (handle env (run env rs) (Request.postAddProduct fname fdescr fprice)).2.status = 422)
    ∧ (∀ (idStr fname fdescr fprice : String) (i : Nat),
        validateProductID idStr (run env rs).heap (run env rs).page = ((i : Int), 200, none) →
        ((handle env (run env rs) (Request.postEditProduct idStr fname fdescr fprice)).2.status = 422
          ↔ ((env.parseFloat fprice).2 = false
            ∨ (((run env rs).catalog.getD i Product.zero).Name ≠ stringsTrimSpace fname
              ∧ ∃ p ∈ (run env rs).catalog, p.Name = stringsTrimSpace fname)))) :=
  ⟨(run_good env rs).2,
    fun fname fdescr fprice hex => create_refused_of_name env (run env rs) fname fdescr fprice hex,
    fun idStr fname fdescr fprice i hv =>
      update_refused_iff env (run env rs) idStr fname fdescr fprice i hv⟩

/-- C7, after creating "Saw": a second "Saw" is refused, renaming the hammer to
"Saw" is refused, and updating the hammer under its own name is accepted. -/
theorem names_distinct_witness :
    (handle GoEnv.reference (run GoEnv.reference [Request.postAddProduct "Saw" "Hand saw" "12.50"])
        (Request.postAddProduct " Saw " "Another" "1")).2.status = 422
    ∧ ((handle GoEnv.reference
          (run GoEnv.reference [Request.postAddProduct "Saw" "Hand saw" "12.50"])
          (Request.postEditProduct "1" "Saw" "" "1")).2.status = 422
        ↔ ((GoEnv.reference.parseFloat "1").2 = false
          ∨ (((run GoEnv.reference
                [Request.postAddProduct "Saw" "Hand saw" "12.50"]).catalog.getD 0
                Product.zero).Name ≠ stringsTrimSpace "Saw"
            ∧ ∃ p ∈ (run GoEnv.reference
                [Request.postAddProduct "Saw" "Hand saw" "12.50"]).catalog,
                p.Name = stringsTrimSpace "Saw")))
    ∧ (handle GoEnv.reference (run GoEnv.reference [Request.postAddProduct "Saw" "Hand saw" "12.50"])
        (Request.postEditProduct "1" "Hammer" "Claw hammer" "11")).2.status = 200 :=
  ⟨(names_distinct GoEnv.reference [Request.postAddProduct "Saw" "Hand saw" "12.50"]).2.1
      " Saw " "Another" "1" (by decide),
    (names_distinct GoEnv.reference [Request.postAddProduct "Saw" "Hand saw" "12.50"]).2.2
      "1" "Saw" "" "1" 0 (by decide),
    by decide⟩

/-- C10 as amended: every product of every catalog reached from the initial
page by fewer than `2^63 - 1` requests has a positive id. -/
theorem ids_positive (env : GoEnv) (rs : List Request) (hlen : rs.length < 2 ^ 63 - 1) :
    ∀ p ∈ (run env rs).catalog, 0 < p.Id :=
  (run_ids env rs hlen).1.id_pos

/-- C10 as amended, for the product that a create has appended. -/
theorem ids_positive_witness :
    [Request.postAddProduct "Saw" "Hand saw" "12.50"].length < 2 ^ 63 - 1
    ∧ ({ Name := "Saw", Descr := "Hand saw", Price := 1250, Id := 2 } : Product)
        ∈ (run GoEnv.reference [Request.postAddProduct "Saw" "Hand saw" "12.50"]).catalog
    ∧ 0 < ({ Name := "Saw", Descr := "Hand saw", Price := 1250, Id := 2 } : Product).Id :=
  ⟨by decide, by decide,
    ids_positive GoEnv.reference [Request.postAddProduct "Saw" "Hand saw" "12.50"] (by decide)
      { Name := "Saw", Descr := "Hand saw", Price := 1250, Id := 2 } (by decide)⟩

/-! ## The form state -/

theorem validateProductID_status (idStr : String) (h : Heap) (page : Page) :
    validateProductID idStr h page = (-1, 400, some "Invalid id")
    ∨ validateProductID idStr h page = (-1, 404, some "Product not found")
    ∨ ∃ i : Nat, i < (h.read page.Data.Products).length
        ∧ validateProductID idStr h page = ((i : Int), 200, none) := by
  cases hparse : strconvAtoi idStr with
  | none => exact Or.inl (validateProductID_invalid idStr h page hparse)
  | some id =>
    by_cases hex : ∃ p ∈ h.read page.Data.Products, p.Id = id
    · obtain ⟨i, hi, hv, _⟩ := validateProductID_present idStr h page id hparse hex
      exact Or.inr (Or.inr ⟨i, hi, hv⟩)
    · have hno : ∀ p ∈ h.read page.Data.Products, p.Id ≠ id := fun p hp hid => hex ⟨p, hp, hid⟩
      exact Or.inr (Or.inl (validateProductID_absent idStr h page id hparse hno))

theorem validateProductForm_errors_ne (env : GoEnv) (name descr price idStr : String)
    (checkName : Bool) (h : Heap) (page : Page)
    (hv : (validateProductForm env name descr price idStr checkName h page).2.1 = false) :
    (validateProductForm env name descr price idStr checkName h page).2.2.Form.Errors ≠ [] := by
  rw [validateProductForm_errors env name descr price idStr checkName h page hv]
  rw [validateProductForm_valid] at hv
  generalize (env.parseFloat price).2 = b1 at hv ⊢
  generalize (if checkName = true then !page.Data.hasName h name else true) = b2 at hv ⊢
  cases b1 <;> cases b2 <;> first | exact absurd hv (by decide) | simp [mapSet]

/-- One request and the form: a submission answered 422 leaves errors, a
displayed form has none, every other request leaves the form as it is. -/
theorem form_step (env : GoEnv) (st : State) (r : Request) :
    (formEffect env st r = some true → (handle env st r).1.page.Form.Errors ≠ [])
    ∧ (formEffect env st r = some false → (handle env st r).1.page.Form.Errors = [])
    ∧ (formEffect env st r = none → (handle env st r).1.page.Form = st.page.Form) := by
  cases r with
  | getRoot => simp [formEffect, handle]
  | getProductList hx cookie => simp [formEffect, handle]
  | postSearch search => simp [formEffect, handle]
  | postDeleteProduct idStr =>
    rcases validateProductID_status idStr st.heap st.page with hv | hv | ⟨i, _, hv⟩ <;>
      simp [formEffect, handle, hv]
  | getAddProduct hx =>
    by_cases hh : htmxEnabled hx = true <;>
      simp [formEffect, handle, hh, respRedirect, respRender, newFormData]
  | getDeleteProduct hx idStr =>
    by_cases hh : htmxEnabled hx = true
    · rcases validateProductID_status idStr st.heap st.page with hv | hv | ⟨i, _, hv⟩ <;>
        simp [formEffect, handle, hh, hv, respString, respRender, newFormData]
    · simp [formEffect, handle, hh, respRedirect]
  | getEditProduct hx idStr =>
    by_cases hh : htmxEnabled hx = true
    · rcases validateProductID_status idStr st.heap st.page with hv | hv | ⟨i, _, hv⟩ <;>
        simp [formEffect, handle, hh, hv, respString, respRender, newFormData]
    · simp [formEffect, handle, hh, respRedirect]
  | postAddProduct fname fdescr fprice =>
    cases hvalid : (validateProductForm env (stringsTrimSpace fname)
        (stringsTrimRight fdescr trimCutset) fprice "" true st.heap st.page).2.1 with
    | false =>
      have hne := validateProductForm_errors_ne env _ _ _ _ _ _ _ hvalid
      simp only [formEffect, handle, hvalid, Bool.not_false, if_true, respRender]
      simp [hne]
    | true =>
      have hpage := validateProductForm_page_ok env _ _ _ _ _ _ _ hvalid
      simp only [formEffect, handle, hvalid, hpage, Bool.not_true, Bool.false_eq_true, if_false,
        renderProductList]
      simp
  | postEditProduct idStr fname fdescr fprice =>
    rcases validateProductID_status idStr st.heap st.page with hv | hv | ⟨i, _, hv⟩
    · simp [formEffect, handle, hv, respString]
    · simp [formEffect, handle, hv, respString]
    · cases hvalid : (validateProductForm env (stringsTrimSpace fname)
          (stringsTrimRight fdescr trimCutset) fprice idStr
          (((st.heap.read st.page.Data.Products).getD i Product.zero).Name
            != stringsTrimSpace fname) st.heap st.page).2.1 with
      | false =>
        have hne := validateProductForm_errors_ne env _ _ _ _ _ _ _ hvalid
        simp only [formEffect, handle, hv, Int.toNat_ofNat, hvalid, Bool.not_false, if_true,
          respRender]
        refine ⟨fun _ => hne, fun h => ?_, fun h => ?_⟩ <;> simp at h
      | true =>
        have hpage := validateProductForm_page_ok env _ _ _ _ _ _ _ hvalid
        simp only [formEffect, handle, hv, Int.toNat_ofNat, hvalid, hpage, Bool.not_true,
          Bool.false_eq_true, if_false, renderProductList]
        simp

theorem lastFormEffect_spec (env : GoEnv) (rs : List Request) :
    ∀ (st : State) (last : Option Bool),
      (st.page.Form.Errors ≠ [] ↔ last = some true) →
      ((runFrom env st rs).page.Form.Errors ≠ [] ↔ lastFormEffect env st last rs = some true) := by
  induction rs with
  | nil => intro st last h; exact h
  | cons r rs ih =>
    intro st last h
    show ((runFrom env (handle env st r).1 rs).page.Form.Errors ≠ [] ↔ _)
    simp only [lastFormEffect]
    apply ih
    obtain ⟨s1, s2, s3⟩ := form_step env st r
    cases hfe : formEffect env st r with
    | none =>
      rw [s3 hfe]
      exact h
    | some b =>
      cases b with
      | true => simpa using s1 hfe
      | false => simpa using s2 hfe

/-- C8 as amended: in every state reached from the initial page, the form errors
are non-empty exactly when the last request that assigned the form (a create
or update submission answered 422, or a displayed form, which resets it) was
a submission answered 422; a successful submission does not assign it. -/
theorem form_errors_iff_last_effect (env : GoEnv) (rs : List Request) :
    (run env rs).page.Form.Errors ≠ [] ↔ lastFormEffect env State.init none rs = some true :=
  lastFormEffect_spec env rs State.init none (by decide)

/-- C8 refuted, in both directions: after a refused and then an accepted create
the last submission passed validation and the errors of the first are still
there; after a refused create and a display of the form the last submission
failed and the errors are gone. -/
theorem form_errors_not_last_submission :
    ((handle GoEnv.reference State.init (Request.postAddProduct "Hammer" "" "1")).2.status = 422
      ∧ (handle GoEnv.reference (run GoEnv.reference [Request.postAddProduct "Hammer" "" "1"])
          (Request.postAddProduct "Saw" "" "1")).2.status = 200
      ∧ (run GoEnv.reference [Request.postAddProduct "Hammer" "" "1",
          Request.postAddProduct "Saw" "" "1"]).page.Form.Errors
        = [("name", "Name already exists")])
    ∧ ((handle GoEnv.reference (run GoEnv.reference [Request.postAddProduct "Hammer" "" "1"])
          (Request.getAddProduct "true")).2.status = 200
      ∧ (run GoEnv.reference [Request.postAddProduct "Hammer" "" "1",
          Request.getAddProduct "true"]).page.Form.Errors = []) := by
  decide

/-! ## Prices -/

theorem update_status (env : GoEnv) (st : State) (idStr fname fdescr fprice : String)
    (hs : (handle env st (Request.postEditProduct idStr fname fdescr fprice)).2.status = 200) :
    ∃ i : Nat, i < st.catalog.length
      ∧ validateProductID idStr st.heap st.page = ((i : Int), 200, none)
      ∧ (validateProductForm env (stringsTrimSpace fname) (stringsTrimRight fdescr trimCutset)
          fprice idStr ((st.catalog.getD i Product.zero).Name != stringsTrimSpace fname)
          st.heap st.page).2.1 = true := by
  rcases validateProductID_status idStr st.heap st.page with hv | hv | ⟨i, hi, hv⟩
  · simp only [handle, hv, respString] at hs
    exact absurd hs (by decide)
  · simp only [handle, hv, respString] at hs
    exact absurd hs (by decide)
  · refine ⟨i, hi, hv, ?_⟩
    unfold State.catalog
    cases hvalid : (validateProductForm env (stringsTrimSpace fname)
        (stringsTrimRight fdescr trimCutset) fprice idStr
        (((st.heap.read st.page.Data.Products).getD i Product.zero).Name
          != stringsTrimSpace fname) st.heap st.page).2.1 with
    | true => rfl
    | false =>
      simp only [handle, hv, Int.toNat_ofNat, hvalid, Bool.not_false, if_true, respRender] at hs
      exact absurd hs (by decide)

theorem run_snoc (env : GoEnv) (rs : List Request) (r : Request) :
    run env (rs ++ [r]) = (handle env (run env rs) r).1 := by
  simp [run, List.foldl_append]

theorem getElem?_modify_self (f : Product → Product) (l : List Product) (i : Nat) :
    (l.modify f i)[i]? = (l[i]?).map f := by
  simp [List.getElem?_modify]

/-- C6 as amended: the price stored by a successful create or update is
`int(v * 100)` for the parsed value `v`, `v * 100` being the binary64 product.
When that product is finite and its integer part fits a 64-bit `int`, the
price is that integer part: the fraction is cut off (rounded toward zero),
not rounded to the nearest cent.  Otherwise (NaN, an infinity, out of range,
as for the price text "1e18") it is the implementation-dependent result of
the conversion.  The price text "10.50" is stored as 1050. -/
theorem price_is_truncated_product (env : GoEnv) (rs : List Request) :
    (∀ fname fdescr fprice : String,
      (handle env (run env rs) (Request.postAddProduct fname fdescr fprice)).2.status = 200 →
      ((run env (rs ++ [Request.postAddProduct fname fdescr fprice])).catalog.getLast?).map
          Product.Price
        = some (F64.toInt env (F64.mul (env.parseFloat fprice).1 F64.hundred)))
    ∧ (∀ idStr fname fdescr fprice : String,
      (handle env (run env rs) (Request.postEditProduct idStr fname fdescr fprice)).2.status = 200 →
      ∃ i : Nat, i < (run env rs).catalog.length
        ∧ ((run env rs).catalog[i]?).map Product.Id = strconvAtoi idStr
        ∧ (((run env (rs ++ [Request.postEditProduct idStr fname fdescr fprice])).catalog)[i]?).map
            Product.Price
          = some (F64.toInt env (F64.mul (env.parseFloat fprice).1 F64.hundred)))
    ∧ (∀ (neg : Bool) (m : Nat) (e : Int),
      -(2 ^ 63 : Int) ≤ F64.trunc neg m e → F64.trunc neg m e < 2 ^ 63 →
      F64.toInt env (F64.finite neg m e) = F64.trunc neg m e)
    ∧ (∀ (m k : Nat), F64.trunc false m (-(k : Int)) * 2 ^ k ≤ m
        ∧ (m : Int) < (F64.trunc false m (-(k : Int)) + 1) * 2 ^ k)
    ∧ (∀ (m : Nat) (e : Int), F64.trunc true m e = -F64.trunc false m e)
    ∧ (∀ (neg : Bool) (m : Nat) (e : Int),
      ¬ (-(2 ^ 63 : Int) ≤ F64.trunc neg m e ∧ F64.trunc neg m e < 2 ^ 63) →
      F64.toInt env (F64.finite neg m e) = env.floatToIntOutOfRange (F64.finite neg m e))
    ∧ (∀ neg : Bool, F64.toInt env (F64.inf neg) = env.floatToIntOutOfRange (F64.inf neg))
    ∧ F64.toInt env F64.nan = env.floatToIntOutOfRange F64.nan
    ∧ (run GoEnv.reference [Request.postEditProduct "1" "Hammer" "Smashing hammer" "10.50"]).catalog
        = [{ Name := "Hammer", Descr := "Smashing hammer", Price := 1050, Id := 1 }]
    ∧ (run GoEnv.reference [Request.postEditProduct "1" "Hammer" "Smashing hammer" "1e18"]).catalog
        = [{ Name := "Hammer", Descr := "Smashing hammer", Price := -9223372036854775808,
             Id := 1 }] := by
  have hgood := run_good env rs
  refine ⟨fun fname fdescr fprice hs => ?_, fun idStr fname fdescr fprice hs => ?_,
    fun neg m e h1 h2 => ?_, fun m k => ?_, fun m e => ?_, fun neg m e h => ?_,
    fun neg => rfl, rfl, by decide, by decide⟩
  · have hvalid := create_status env (run env rs) fname fdescr fprice hs
    obtain ⟨_, h2, _⟩ := handle_create_ok env (run env rs) fname fdescr fprice hgood.1 hvalid
    rw [run_snoc, h2]
    simp
  · obtain ⟨i, hi, hv, hvalid⟩ := update_status env (run env rs) idStr fname fdescr fprice hs
    obtain ⟨_, h2, _⟩ := handle_update_ok env (run env rs) idStr fname fdescr fprice i hgood.1 hi hv hvalid
    refine ⟨i, hi, ?_, ?_⟩
    · cases hparse : strconvAtoi idStr with
      | none =>
        rw [validateProductID_invalid idStr _ _ hparse] at hv
        exact absurd hv (by simp)
      | some id =>
        by_cases hex : ∃ p ∈ (run env rs).heap.read (run env rs).page.Data.Products, p.Id = id
        · obtain ⟨j, hj, hvj, hget⟩ := validateProductID_present idStr _ _ id hparse hex
          rw [hv] at hvj
          have hij : i = j := by
            have := congrArg Prod.fst hvj
            simpa using this
          rw [hij]
          exact hget
        · have hno : ∀ p ∈ (run env rs).heap.read (run env rs).page.Data.Products, p.Id ≠ id :=
            fun p hp hid => hex ⟨p, hp, hid⟩
          rw [validateProductID_absent idStr _ _ id hparse hno] at hv
          exact absurd hv (by simp)
    · rw [run_snoc, h2, getElem?_modify_self, List.getElem?_eq_getElem hi]
      rfl
  · simp only [F64.toInt]
    rw [if_pos ⟨h1, h2⟩]
  · have hpos : 0 < 2 ^ k := Nat.two_pow_pos k
    by_cases hk : k = 0
    · subst hk
      simp [F64.trunc]
    · have hneg : ¬ (0 : Int) ≤ -(k : Int) := by omega
      simp only [F64.trunc, hneg, if_false, Int.neg_neg, Int.toNat_ofNat, Bool.false_eq_true]
      constructor
      · exact_mod_cast Nat.div_mul_le_self m (2 ^ k)
      · have h3 : m < (m / 2 ^ k + 1) * 2 ^ k := by
          rw [Nat.mul_comm]
          exact Nat.lt_mul_div_succ m hpos
        exact_mod_cast h3
  · simp [F64.trunc]
  · simp only [F64.toInt]
    rw [if_neg h]

/-- C6 as amended, for an update of the seed product with the price "10.50". -/
theorem price_is_truncated_product_witness :
    ∃ i : Nat, i < (run GoEnv.reference []).catalog.length
      ∧ ((run GoEnv.reference []).catalog[i]?).map Product.Id = strconvAtoi "1"
      ∧ (((run GoEnv.reference ([] ++ [Request.postEditProduct "1" "Hammer" "Smashing hammer"
            "10.50"])).catalog)[i]?).map Product.Price
        = some (F64.toInt GoEnv.reference
            (F64.mul (GoEnv.reference.parseFloat "10.50").1 F64.hundred)) :=
  (price_is_truncated_product GoEnv.reference []).2.1 "1" "Hammer" "Smashing hammer" "10.50"
    (by decide)

/-- C6 refuted: updating the price to "19.99" is accepted and stores 1998 cents,
while the product `19.99 * 100` rounded to the nearest integer is 1999. -/
theorem price_not_rounded :
    (handle GoEnv.reference State.init
        (Request.postEditProduct "1" "Hammer" "Smashing hammer" "19.99")).2.status = 200
    ∧ (run GoEnv.reference
        [Request.postEditProduct "1" "Hammer" "Smashing hammer" "19.99"]).catalog
      = [{ Name := "Hammer", Descr := "Smashing hammer", Price := 1998, Id := 1 }]
    ∧ F64.roundNearest (F64.mul (GoEnv.reference.parseFloat "19.99").1 F64.hundred) = some 1999 := by
  decide

/-! ## The filtered view -/

/-- C4, the delete handler: it removes the product from the catalog and does
not assign `page.FilteredProducts`.  With an empty search text the view is
the old slice over the array the delete has shifted, `[Saw, Saw]` for the
catalog `[Saw]`; with the search text "saw" it is the list computed before
the delete, which still holds the deleted product. -/
theorem delete_leaves_view_stale :
    ((handle GoEnv.reference (run GoEnv.reference [Request.postAddProduct "Saw" "Hand saw" "12.50"])
        (Request.postDeleteProduct "1")).2.status = 200
      ∧ (run GoEnv.reference [Request.postAddProduct "Saw" "Hand saw" "12.50",
          Request.postDeleteProduct "1"]).catalog
        = [{ Name := "Saw", Descr := "Hand saw", Price := 1250, Id := 2 }]
      ∧ (run GoEnv.reference [Request.postAddProduct "Saw" "Hand saw" "12.50",
          Request.postDeleteProduct "1"]).page.SearchText = ""
      ∧ (run GoEnv.reference [Request.postAddProduct "Saw" "Hand saw" "12.50",
          Request.postDeleteProduct "1"]).filtered
        = [{ Name := "Saw", Descr := "Hand saw", Price := 1250, Id := 2 },
           { Name := "Saw", Descr := "Hand saw", Price := 1250, Id := 2 }]
      ∧ expectedView GoEnv.reference
          (run GoEnv.reference [Request.postAddProduct "Saw" "Hand saw" "12.50",
            Request.postDeleteProduct "1"]).catalog
          (run GoEnv.reference [Request.postAddProduct "Saw" "Hand saw" "12.50",
            Request.postDeleteProduct "1"]).page.SearchText
        = [{ Name := "Saw", Descr := "Hand saw", Price := 1250, Id := 2 }])
    ∧ ((handle GoEnv.reference (run GoEnv.reference [Request.postAddProduct "Saw" "Hand saw" "12.50",
          Request.postSearch "saw"]) (Request.postDeleteProduct "2")).2.status = 200
      ∧ (run GoEnv.reference [Request.postAddProduct "Saw" "Hand saw" "12.50",
          Request.postSearch "saw", Request.postDeleteProduct "2"]).catalog
        = [{ Name := "Hammer", Descr := "Smashing hammer", Price := 1000, Id := 1 }]
      ∧ (run GoEnv.reference [Request.postAddProduct "Saw" "Hand saw" "12.50",
          Request.postSearch "saw", Request.postDeleteProduct "2"]).filtered
        = [{ Name := "Saw", Descr := "Hand saw", Price := 1250, Id := 2 }]
      ∧ expectedView GoEnv.reference
          (run GoEnv.reference [Request.postAddProduct "Saw" "Hand saw" "12.50",
            Request.postSearch "saw", Request.postDeleteProduct "2"]).catalog
          (run GoEnv.reference [Request.postAddProduct "Saw" "Hand saw" "12.50",
            Request.postSearch "saw", Request.postDeleteProduct "2"]).page.SearchText = []) := by
  decide

/-- After a search submission, a successful create and a successful update,
served in any state reached from the initial page, `page.FilteredProducts`
holds the filter of the catalog by the search text, both as they are then. -/
theorem view_consistent_after_search_create_update (env : GoEnv) (rs : List Request) :
    (∀ search : String,
      (run env (rs ++ [Request.postSearch search])).filtered
        = expectedView env (run env (rs ++ [Request.postSearch search])).catalog
            (run env (rs ++ [Request.postSearch search])).page.SearchText)
    ∧ (∀ fname fdescr fprice : String,
      (handle env (run env rs) (Request.postAddProduct fname fdescr fprice)).2.status = 200 →
      (run env (rs ++ [Request.postAddProduct fname fdescr fprice])).filtered
        = expectedView env (run env (rs ++ [Request.postAddProduct fname fdescr fprice])).catalog
            (run env (rs ++ [Request.postAddProduct fname fdescr fprice])).page.SearchText)
    ∧ (∀ idStr fname fdescr fprice : String,
      (handle env (run env rs) (Request.postEditProduct idStr fname fdescr fprice)).2.status = 200 →
      (run env (rs ++ [Request.postEditProduct idStr fname fdescr fprice])).filtered
        = expectedView env
            (run env (rs ++ [Request.postEditProduct idStr fname fdescr fprice])).catalog
            (run env (rs ++ [Request.postEditProduct idStr fname fdescr fprice])).page.SearchText) := by
  have hgood := run_good env rs
  refine ⟨fun search => ?_, fun fname fdescr fprice hs => ?_,
    fun idStr fname fdescr fprice hs => ?_⟩
  · obtain ⟨_, h2, _, h4, _, h6, _⟩ := handle_search env (run env rs) search hgood.1
    rw [run_snoc, h6, h4, h2]
    rfl
  · have hvalid := create_status env (run env rs) fname fdescr fprice hs
    obtain ⟨_, _, _, h4, _, h6, _⟩ :=
      handle_create_ok env (run env rs) fname fdescr fprice hgood.1 hvalid
    rw [run_snoc, h6, h4]
    rfl
  · obtain ⟨i, hi, hv, hvalid⟩ := update_status env (run env rs) idStr fname fdescr fprice hs
    obtain ⟨_, _, _, h4, _, h6, _⟩ :=
      handle_update_ok env (run env rs) idStr fname fdescr fprice i hgood.1 hi hv hvalid
    rw [run_snoc, h6, h4]
    rfl

/-- The view after a search, a create and an update on a concrete run. -/
theorem view_consistent_witness :
    (run GoEnv.reference ([Request.postSearch "ham"]
        ++ [Request.postAddProduct "Saw" "Hand saw" "12.50"])).filtered
      = expectedView GoEnv.reference
          (run GoEnv.reference ([Request.postSearch "ham"]
            ++ [Request.postAddProduct "Saw" "Hand saw" "12.50"])).catalog
          (run GoEnv.reference ([Request.postSearch "ham"]
            ++ [Request.postAddProduct "Saw" "Hand saw" "12.50"])).page.SearchText :=
  (view_consistent_after_search_create_update GoEnv.reference [Request.postSearch "ham"]).2.1
    "Saw" "Hand saw" "12.50" (by decide)

/-- The scenario of the specification: from the seed product, creating "Saw"
with price "12.50" gives a catalog of two products, the new one with id 2 and
1250 cents; a search for "saw" then shows the Saw product only. -/
theorem scenario_create_then_search :
    (run GoEnv.reference [Request.postAddProduct "Saw" "Hand saw" "12.50"]).catalog
      = [{ Name := "Hammer", Descr := "Smashing hammer", Price := 1000, Id := 1 },
         { Name := "Saw", Descr := "Hand saw", Price := 1250, Id := 2 }]
    ∧ (run GoEnv.reference [Request.postAddProduct "Saw" "Hand saw" "12.50",
        Request.postSearch "saw"]).filtered
      = [{ Name := "Saw", Descr := "Hand saw", Price := 1250, Id := 2 }] := by
  decide

/-! ## The counter at the end of the `int` range -/

theorem digitVal_digitChar (d : Nat) (hd : d < 10) : digitVal (digitChar d) = some d := by
  interval_cases d <;> rfl

theorem digitsVal_snoc (l : List Char) (c : Char) (acc : Nat) :
    digitsVal (l ++ [c]) acc
      = (digitsVal l acc).bind (fun v => (digitVal c).map (fun d => v * 10 + d)) := by
  induction l generalizing acc with
  | nil =>
    simp only [List.nil_append, digitsVal, Option.some_bind]
    cases digitVal c <;> rfl
  | cons x l ih =>
    simp only [List.cons_append, digitsVal]
    cases digitVal x with
    | none => rfl
    | some v => exact ih _

theorem digitsVal_decimalFuel (f : Nat) : ∀ n : Nat, n < 10 ^ f →
    digitsVal (decimalFuel f n) 0 = some n := by
  induction f with
  | zero =>
    intro n hn
    have : n = 0 := by simpa using hn
    subst this
    rfl
  | succ f ih =>
    intro n hn
    unfold decimalFuel
    by_cases h10 : n < 10
    · simp only [h10, if_true, digitsVal, digitVal_digitChar n h10]
      simp
    · simp only [h10, if_false]
      have hdiv : n / 10 < 10 ^ f := by
        rw [Nat.div_lt_iff_lt_mul (by decide)]
        rw [Nat.pow_succ] at hn
        exact hn
      rw [digitsVal_snoc, ih _ hdiv, digitVal_digitChar _ (Nat.mod_lt _ (by decide))]
      simp only [Option.some_bind, Option.map_some']
      congr 1
      omega

theorem decimalFuel_head (f n : Nat) :
    ∃ d, d < 10 ∧ ∃ rest, decimalFuel (f + 1) n = digitChar d :: rest := by
  induction f generalizing n with
  | zero =>
    unfold decimalFuel
    by_cases h10 : n < 10
    · exact ⟨n, h10, [], by simp [h10]⟩
    · exact ⟨n % 10, Nat.mod_lt _ (by decide), [], by simp [h10, decimalFuel]⟩
  | succ f ih =>
    unfold decimalFuel
    by_cases h10 : n < 10
    · exact ⟨n, h10, [], by simp [h10]⟩
    · obtain ⟨d, hd, rest, hr⟩ := ih (n / 10)
      exact ⟨d, hd, rest ++ [digitChar (n % 10)], by simp [h10, hr]⟩

theorem strconvAtoi_digits (c : Char) (rest : List Char) (n : Nat)
    (hc : c ≠ '+') (hc2 : c ≠ '-') (hval : digitsVal (c :: rest) 0 = some n) (hn : n < 2 ^ 63) :
    strconvAtoi (String.mk (c :: rest)) = some (n : Int) := by
  unfold strconvAtoi
  have hbody : (match (String.mk (c :: rest)).data with
      | '+' :: cs => (false, cs)
      | '-' :: cs => (true, cs)
      | cs => (false, cs)) = (false, c :: rest) := by
    show (match c :: rest with
      | '+' :: cs => (false, cs)
      | '-' :: cs => (true, cs)
      | cs => (false, cs)) = (false, c :: rest)
    split
    · rename_i h; exact absurd (List.cons.inj h).1 hc
    · rename_i h; exact absurd (List.cons.inj h).1 hc2
    · rfl
  simp only [hbody, hval]
  have h1 : (-(2 ^ 63 : Int) ≤ (n : Int) ∧ (n : Int) < 2 ^ 63) := by
    constructor <;> omega
  simp only [Bool.false_eq_true, if_false]
  rw [if_pos h1]

theorem strconvAtoi_decimalText (n : Nat) (hn : n < 2 ^ 63) :
    strconvAtoi (decimalText n) = some (n : Int) := by
  obtain ⟨d, hd, rest, hr⟩ := decimalFuel_head 19 n
  have hval : digitsVal (decimalFuel 20 n) 0 = some n :=
    digitsVal_decimalFuel 20 n (by omega)
  unfold decimalText
  rw [hr] at hval ⊢
  have hc : digitChar d ≠ '+' ∧ digitChar d ≠ '-' := by
    interval_cases d <;> decide
  exact strconvAtoi_digits _ rest n hc.1 hc.2 hval hn

theorem round_create_valid (st : State)
    (hcat : st.catalog
      = [{ Name := "Hammer", Descr := "Smashing hammer", Price := 1000, Id := 1 }]) :
    (validateProductForm GoEnv.reference (stringsTrimSpace "x") (stringsTrimRight "" trimCutset)
      "1" "" true st.heap st.page).2.1 = true := by
  rw [validateProductForm_valid]
  have hname : st.page.Data.hasName st.heap (stringsTrimSpace "x") = false := by
    show hasNameIn (stringsTrimSpace "x") st.catalog = false
    rw [hcat]
    decide
  rw [hname]
  decide

/-- After `k` create-and-delete rounds the catalog is the seed product again
and the counter is `1 + k`, as long as it has not passed the largest `int`. -/
theorem rounds_state (k : Nat) (hk : k ≤ 2 ^ 63 - 2) :
    (run GoEnv.reference (createDeleteRounds k)).catalog
      = [{ Name := "Hammer", Descr := "Smashing hammer", Price := 1000, Id := 1 }]
    ∧ (run GoEnv.reference (createDeleteRounds k)).id = 1 + (k : Int) := by
  induction k with
  | zero => exact ⟨by decide, by decide⟩
  | succ k ih =>
    obtain ⟨hcat, hid⟩ := ih (by omega)
    have hgood := run_good GoEnv.reference (createDeleteRounds k)
    have hvalid := round_create_valid _ hcat
    obtain ⟨c1, c2, c3, _⟩ := handle_create_ok GoEnv.reference
      (run GoEnv.reference (createDeleteRounds k)) "x" "" "1" hgood.1 hvalid
    have hw : wrapInt ((run GoEnv.reference (createDeleteRounds k)).id + 1) = ((k + 2 : Nat) : Int) := by
      rw [hid, wrapInt_of_range _ (by omega) (by omega)]
      push_cast
      ring
    rw [hw, hcat] at c2
    rw [hw] at c1
    have hparse := strconvAtoi_decimalText (k + 2) (by omega)
    generalize hst1 : (handle GoEnv.reference (run GoEnv.reference (createDeleteRounds k))
      (Request.postAddProduct "x" "" "1")).1 = st1 at c1 c2 c3
    have hex : ∃ p ∈ st1.heap.read st1.page.Data.Products, p.Id = ((k + 2 : Nat) : Int) := by
      show ∃ p ∈ st1.catalog, p.Id = ((k + 2 : Nat) : Int)
      rw [c2]
      exact ⟨_, List.mem_append_right _ (List.mem_singleton_self _), rfl⟩
    obtain ⟨i, hi, hv, hget⟩ := validateProductID_present (decimalText (k + 2)) st1.heap st1.page
      _ hparse hex
    have hi' : i < st1.catalog.length := hi
    have hget' : (st1.catalog[i]?).map Product.Id = some ((k + 2 : Nat) : Int) := hget
    rw [c2] at hi' hget'
    have hi1 : i = 1 := by
      simp only [List.length_append, List.length_singleton] at hi'
      have : i = 0 ∨ i = 1 := by omega
      rcases this with h0 | h1
      · subst h0
        simp at hget'
        omega
      · exact h1
    subst hi1
    obtain ⟨d1, d2, _⟩ := handle_delete_ok GoEnv.reference st1 (decimalText (k + 2)) 1 c3 hi hv
    have hrun : run GoEnv.reference (createDeleteRounds (k + 1))
        = (handle GoEnv.reference st1 (Request.postDeleteProduct (decimalText (k + 2)))).1 := by
      rw [← hst1]
      simp [createDeleteRounds, run, List.foldl_append]
    rw [hrun, d1, d2, c1, c2]
    refine ⟨rfl, ?_⟩
    push_cast
    ring

/-- After `2^63 - 2` create-and-delete rounds the counter is at the largest
`int`; the next create is accepted and gets the id `-2^63`. -/
theorem create_at_max_counter :
    (handle GoEnv.reference (run GoEnv.reference (createDeleteRounds (2 ^ 63 - 2)))
        (Request.postAddProduct "x" "" "1")).2.status = 200
    ∧ (run GoEnv.reference
        (createDeleteRounds (2 ^ 63 - 2) ++ [Request.postAddProduct "x" "" "1"])).catalog
      = [{ Name := "Hammer", Descr := "Smashing hammer", Price := 1000, Id := 1 },
         { Name := "x", Descr := "", Price := 100, Id := -9223372036854775808 }] := by
  obtain ⟨hcat, hid⟩ := rounds_state (2 ^ 63 - 2) (Nat.le_refl _)
  have hgood := run_good GoEnv.reference (createDeleteRounds (2 ^ 63 - 2))
  have hvalid := round_create_valid _ hcat
  obtain ⟨_, c2, _, _, _, _, c7⟩ := handle_create_ok GoEnv.reference
    (run GoEnv.reference (createDeleteRounds (2 ^ 63 - 2))) "x" "" "1" hgood.1 hvalid
  have hw : wrapInt ((run GoEnv.reference (createDeleteRounds (2 ^ 63 - 2))).id + 1)
      = -9223372036854775808 := by
    rw [hid]
    decide
  have hprice : F64.toInt GoEnv.reference
      (F64.mul (GoEnv.reference.parseFloat "1").1 F64.hundred) = 100 := by decide
  have hname : stringsTrimSpace "x" = "x" := by decide
  have hdescr : stringsTrimRight "" trimCutset = "" := by decide
  rw [hw, hcat, hprice, hname, hdescr] at c2
  refine ⟨by rw [c7]; rfl, ?_⟩
  rw [run_snoc, c2]
  rfl

/-- C3 refuted: after `2^63 - 2` rounds of creating a product and deleting it
the counter is at the largest `int`; the next create is accepted and `id++`
wraps around, so the new product gets the id `-2^63`, below the id 1 of the
seed product. -/
theorem id_counter_wraps :
    (handle GoEnv.reference (run GoEnv.reference (createDeleteRounds (2 ^ 63 - 2)))
        (Request.postAddProduct "x" "" "1")).2.status = 200
    ∧ (run GoEnv.reference
        (createDeleteRounds (2 ^ 63 - 2) ++ [Request.postAddProduct "x" "" "1"])).catalog
      = [{ Name := "Hammer", Descr := "Smashing hammer", Price := 1000, Id := 1 },
         { Name := "x", Descr := "", Price := 100, Id := -9223372036854775808 }] :=
  create_at_max_counter

/-- C10 refuted: a create with an empty name and the price "-1" is accepted and
puts a product with an empty name and a negative price into the catalog; and
once the counter has wrapped around, the catalog holds a product with a
negative id. -/
theorem empty_name_negative_price_accepted :
    ((handle GoEnv.reference State.init (Request.postAddProduct "" "" "-1")).2.status = 200
      ∧ (run GoEnv.reference [Request.postAddProduct "" "" "-1"]).catalog
        = [{ Name := "Hammer", Descr := "Smashing hammer", Price := 1000, Id := 1 },
           { Name := "", Descr := "", Price := -100, Id := 2 }])
    ∧ (run GoEnv.reference
        (createDeleteRounds (2 ^ 63 - 2) ++ [Request.postAddProduct "x" "" "1"])).catalog
      = [{ Name := "Hammer", Descr := "Smashing hammer", Price := 1000, Id := 1 },
         { Name := "x", Descr := "", Price := 100, Id := -9223372036854775808 }] :=
  ⟨by decide, create_at_max_counter.2⟩

end GoHtmxCrud
